import Mathlib

/-!
Shallow embedding of the tool-execution control plane of the
`llm-council-enhanced` backend (`backend/tools/`): the data contracts
(`types.py`), the budget/allowlist/priority router (`router.py`), the
Steward output parser (`parser.py`) and the sample web tools
(`definitions/web.py`).

Modelling conventions:
* Python `str` is Lean `String` (or `List Char` where character-level
  reasoning is needed), Python `int` used as a count/clock is `Nat`.
* `datetime.now()` is an explicit `now : Nat` parameter (seconds); a single
  run is modelled as happening at one instant.
* Dictionaries are association lists; `frozenset(args.items())` equality is
  order-independent set equality of the pair list.
* The module-level `_TOOL_CACHE` global is threaded explicitly: the router
  takes an initial cache and returns the final one.
* Handlers are opaque functions supplied through the registry parameter; a
  handler either returns a `ToolResult` or raises, modelled by
  `HandlerOutcome`.  The state additionally carries a ghost log
  `invocations` of the handler invocations actually performed, used only to
  state "the handler is invoked at most once" properties; it does not
  influence any computed value.
* `ToolResult.data` (`Any` in Python) is modelled by its string rendering
  `Option String`; `none` models `None` and the empty string models falsy
  data, matching the router's `str(result.data) if result.data else ""`.
-/

namespace LlmCouncil

/-- A metadata value stored in the `meta` dictionaries
(`latency_ms`, `cached`, `size_bytes`, `rejection_reason`, ...). -/
inductive MVal where
  | n (v : Nat)
  | b (v : Bool)
  | s (v : String)
  deriving DecidableEq, Repr

/-- Argument map of a call (`arguments: Dict[str, Any]`), modelled with
string values, which is all the spec's scenarios use. -/
abbrev Args := List (String × String)

/-- `types.ToolError`: structured error information for tool failures.
The field `type` ranges over the source's `ErrorType` literals. -/
structure ToolError where
  type : String
  message : String
  retryable : Bool := false
  deriving DecidableEq, Repr

/-- `types.ToolResult`: normalized result of a tool execution.
`schema_version` is the constant `"1.0"` in the source and is omitted. -/
structure ToolResult where
  id : String
  run_id : String
  ok : Bool
  data : Option String := none
  error : Option ToolError := none
  meta : List (String × MVal) := []
  deriving DecidableEq, Repr

/-- `types.ToolCall`: one requested tool invocation.  `priority` is kept as
an arbitrary string because the router's sort key is the defensive
`priority_map.get(c.priority, 1)`. -/
structure ToolCall where
  id : String
  run_id : String
  name : String
  arguments : Args
  intent : String := "other"
  purpose : String
  priority : String := "normal"
  requested_by : String
  deriving DecidableEq, Repr

/-- `types.ToolUsageRecord`: the router's ledger entry for one call.
`sources` is never populated by the router and is omitted. -/
structure ToolUsageRecord where
  call_id : String
  tool_name : String
  arguments : Args
  status : String
  output_summary : String
  raw_truncated : Option String := none
  meta : List (String × MVal) := []
  deriving DecidableEq, Repr

/-- `types.UsageLimits`: per-run budget accounting. -/
structure UsageLimits where
  max_calls : Nat := 0
  calls_used : Nat := 0
  limits_triggered : List String := []
  deriving DecidableEq, Repr

/-- `types.EvidencePack` restricted to the fields the router populates
(`generated_at` is a wall-clock timestamp, `schema_version` a constant,
`key_facts`/`open_questions` are left at their empty defaults). -/
structure EvidencePack where
  run_id : String
  query : String
  tools_used : List ToolUsageRecord := []
  limits : UsageLimits
  deriving DecidableEq, Repr

/-- Outcome of invoking a handler: either it returns a `ToolResult`, or it
raises an exception carrying a message (`str(e)`). -/
inductive HandlerOutcome where
  | result (r : ToolResult)
  | raise (msg : String)
  deriving Repr

/-- A registered tool implementation: `func(call.arguments, run_id=...,
call_id=...)`. -/
abbrev Handler := Args → String → String → HandlerOutcome

/-- The `_TOOL_CACHE` global: `(tool_name, frozenset(args.items())) ->
(ToolResult, expire_at)`, as an association list. -/
abbrev Cache := List ((String × Args) × ToolResult × Nat)

/-- Constructor arguments of `ToolRouter`. -/
structure RouterConfig where
  allowlist : Option (List String) := none
  max_calls_per_run : Nat := 5
  max_evidence_chars : Nat := 10000
  deriving Repr

/-- Order-independent equality of two argument maps: equality of
`frozenset(args.items())`. -/
def argsSetEq (a b : Args) : Bool :=
  a.all (fun x => b.contains x) && b.all (fun x => a.contains x)

/-- Whether a cache entry key equals the key `(name, frozenset(args))`. -/
def cacheKeyMatches (name : String) (args : Args) (k : String × Args) : Bool :=
  k.1 == name && argsSetEq k.2 args

/-- Dictionary assignment `m[k] = v` on a metadata map: replace the value of
an existing key in place, otherwise append the new key. -/
def metaSet (m : List (String × MVal)) (k : String) (v : MVal) :
    List (String × MVal) :=
  if m.any (fun e => e.1 == k) then
    m.map (fun e => if e.1 == k then (k, v) else e)
  else m ++ [(k, v)]

/-- Substring test `p in s` (Python `in` on strings), character-list level. -/
def hasSub (p : List Char) : List Char → Bool
  | [] => p.isEmpty
  | c :: cs => p.isPrefixOf (c :: cs) || hasSub p cs

/-- Truthiness of the Python allowlist check
`self.allowlist and call.name not in self.allowlist`. -/
def allowlistRejects (allowlist : Option (List String)) (name : String) : Bool :=
  match allowlist with
  | none => false
  | some l => !l.isEmpty && !l.contains name

/-- `ToolRouter._create_rejected_record`. -/
def create_rejected_record (call : ToolCall) (reason : String) : ToolUsageRecord :=
  { call_id := call.id
    tool_name := call.name
    arguments := call.arguments
    status := "rejected"
    output_summary := "Call rejected: " ++ reason
    raw_truncated := none
    meta := [("rejection_reason", MVal.s reason)] }

/-- `ToolRouter._check_cache`: look up a live entry for the call's key;
mark a hit as `cached = true`; delete an expired entry.  Returns the cache
after the (possible) deletion. -/
def check_cache (cache : Cache) (now : Nat) (call : ToolCall) :
    Option ToolResult × Cache :=
  match cache.find? (fun e => cacheKeyMatches call.name call.arguments e.1) with
  | none => (none, cache)
  | some (_, res, expire_at) =>
    if now < expire_at then
      (some { res with meta := metaSet res.meta "cached" (MVal.b true) }, cache)
    else
      (none, cache.eraseP (fun e => cacheKeyMatches call.name call.arguments e.1))

/-- `ToolRouter._update_cache`: store a result under the call's key with a
TTL of 300 seconds, or 600 seconds when `"search" in call.name`. -/
def update_cache (cache : Cache) (now : Nat) (call : ToolCall)
    (result : ToolResult) : Cache :=
  let ttl : Nat := if hasSub "search".toList call.name.toList then 600 else 300
  let key := (call.name, call.arguments)
  ((key, result, now + ttl)) ::
    cache.eraseP (fun e => cacheKeyMatches call.name call.arguments e.1)

/-- `str(result.data) if result.data else ""`, on the string-rendered data
model (falsy data is `none` or the empty rendering). -/
def rawStrOf (data : Option String) : String :=
  match data with
  | some s => if s.isEmpty then "" else s
  | none => ""

/-- `ToolRouter._process_result`: convert a `ToolResult` into a
`ToolUsageRecord`.  The `current_chars` argument is accepted but unused,
exactly as in the source.  The `web.search`-specific pretty summary branch
inspects the structured dict payload, which the string-rendered data model
does not carry; no claim concerns the `output_summary` of executed records,
so that branch's generic text is used. -/
def process_result (call : ToolCall) (result : ToolResult)
    (_current_chars : Nat) : ToolUsageRecord :=
  let status := if result.ok then "executed" else "failed"
  let raw0 := rawStrOf result.data
  let raw_str :=
    if raw0.length > 2000 then raw0.take 2000 ++ "... [TRUNCATED]" else raw0
  let summary :=
    if !result.ok then
      "Error: " ++ (match result.error with
                    | some e => e.message
                    | none => "Unknown error")
    else
      "Executed " ++ call.name ++ ". Result size: " ++
        toString raw_str.length ++ " chars."
  { call_id := call.id
    tool_name := call.name
    arguments := call.arguments
    status := status
    output_summary := summary
    raw_truncated := some raw_str
    meta := result.meta }

/-- The `ToolResult` synthesized in the router's `except Exception` branch. -/
def handler_exception_result (call : ToolCall) (runId msg : String) : ToolResult :=
  { id := call.id
    run_id := runId
    ok := false
    data := none
    error := some { type := "tool_error", message := msg, retryable := true }
    meta := [("latency_ms", MVal.n 0)] }

/-- Mutable state of the `execute_tool_calls` loop, plus the ghost
`invocations` log of actual handler invocations. -/
structure RouterState where
  usage_records : List ToolUsageRecord := []
  limits_triggered : List String := []
  calls_executed_count : Nat := 0
  total_evidence_chars : Nat := 0
  cache : Cache := []
  invocations : List (String × Args) := []
  deriving Repr

/-- The tail of one loop iteration after a result has been obtained (from
cache or handler): build the record, append it, and do the `result.ok`
accounting.  Returns the new state and whether the `break` on
`max_evidence_size` fired. -/
def applyResult (cfg : RouterConfig) (st : RouterState) (call : ToolCall)
    (result : ToolResult) (cache : Cache) (invs : List (String × Args)) :
    RouterState × Bool :=
  let record := process_result call result st.total_evidence_chars
  let st := { st with usage_records := st.usage_records ++ [record],
                      cache := cache, invocations := invs }
  if result.ok then
    let chars := st.total_evidence_chars +
      (match record.raw_truncated with
       | some s => if s.isEmpty then 0 else s.length
       | none => 0)
    let st := { st with calls_executed_count := st.calls_executed_count + 1,
                        total_evidence_chars := chars }
    if chars ≥ cfg.max_evidence_chars then
      ({ st with limits_triggered := st.limits_triggered ++ ["max_evidence_size"] },
       true)
    else (st, false)
  else (st, false)

/-- One iteration of `execute_tool_calls`' `for call in sorted_calls` loop:
budget check, allowlist check, registry check, then cache-or-invoke inside
the `try`/`except` boundary.  Returns the new state and whether the
`break` on `max_evidence_size` fired. -/
def routerStep (cfg : RouterConfig) (registry : String → Option Handler)
    (runId : String) (now : Nat) (st : RouterState) (call : ToolCall) :
    RouterState × Bool :=
  if st.calls_executed_count ≥ cfg.max_calls_per_run then
    ({ st with
       limits_triggered := st.limits_triggered ++ ["max_calls_per_run"],
       usage_records :=
         st.usage_records ++ [create_rejected_record call "budget_exceeded"] },
     false)
  else if allowlistRejects cfg.allowlist call.name then
    ({ st with usage_records :=
         st.usage_records ++ [create_rejected_record call "access_denied"] },
     false)
  else
    match registry call.name with
    | none =>
      ({ st with usage_records :=
           st.usage_records ++ [create_rejected_record call "tool_not_found"] },
       false)
    | some func =>
      match check_cache st.cache now call with
      | (some result, cacheAfter) =>
        applyResult cfg st call result cacheAfter st.invocations
      | (none, cacheAfter) =>
        match func call.arguments runId call.id with
        | HandlerOutcome.result result =>
          let cacheAfter :=
            if result.ok then update_cache cacheAfter now call result
            else cacheAfter
          applyResult cfg st call result cacheAfter
            (st.invocations ++ [(call.name, call.arguments)])
        | HandlerOutcome.raise msg =>
          ({ st with
             usage_records := st.usage_records ++
               [process_result call (handler_exception_result call runId msg)
                 st.total_evidence_chars],
             cache := cacheAfter,
             invocations := st.invocations ++ [(call.name, call.arguments)] },
           false)

/-- The body of `execute_tool_calls`' `for call in sorted_calls` loop. -/
def go (cfg : RouterConfig) (registry : String → Option Handler)
    (runId : String) (now : Nat) : RouterState → List ToolCall → RouterState
  | st, [] => st
  | st, call :: rest =>
    let step := routerStep cfg registry runId now st call
    if step.2 then step.1 else go cfg registry runId now step.1 rest

/-- Sort key `priority_map.get(c.priority, 1)` with
`priority_map = {"high": 0, "normal": 1, "low": 2}`. -/
def priorityRank (p : String) : Nat :=
  if p == "high" then 0 else if p == "normal" then 1 else if p == "low" then 2
  else 1

/-- Stable insertion of a call into an already priority-sorted list: the
call goes before the first element whose rank is not strictly smaller. -/
def insertByRank (a : ToolCall) : List ToolCall → List ToolCall
  | [] => [a]
  | b :: bs =>
    if priorityRank b.priority < priorityRank a.priority then
      b :: insertByRank a bs
    else a :: b :: bs

/-- `sorted(calls, key=lambda c: priority_map.get(c.priority, 1))`: Python's
`sorted` is stable, and a stable sort by a key is extensionally unique, so
it is modelled by stable insertion sort. -/
def sortCalls (calls : List ToolCall) : List ToolCall :=
  calls.foldr insertByRank []

/-- `ToolRouter.execute_tool_calls`: the control-plane entry point.
Returns the `EvidencePack` together with the final state of the module
cache and the ghost invocation log.  `list(set(limits_triggered))` has
well-defined membership but unspecified order; it is modelled by `dedup`. -/
def execute_tool_calls (cfg : RouterConfig)
    (registry : String → Option Handler) (cache₀ : Cache) (now : Nat)
    (calls : List ToolCall) (runId : String) :
    EvidencePack × Cache × List (String × Args) :=
  let st := go cfg registry runId now
    { usage_records := [], limits_triggered := [], calls_executed_count := 0,
      total_evidence_chars := 0, cache := cache₀, invocations := [] }
    (sortCalls calls)
  ({ run_id := runId
     query := "[Pending]"
     tools_used := st.usage_records
     limits :=
       { max_calls := cfg.max_calls_per_run
         calls_used := st.calls_executed_count
         limits_triggered := st.limits_triggered.dedup } },
   st.cache, st.invocations)

/-! ### Output parser (`parser.py`) -/

/-- Python's `\s` whitespace class used by the parser's regexes and
`str.strip`. -/
def isSpaceChar (c : Char) : Bool :=
  c == ' ' || c == '\t' || c == '\n' || c == '\r' || c == '\x0b' || c == '\x0c'

/-- Find the first occurrence of `p` as a contiguous substring: returns the
text before it and the text after it. -/
def splitAtSub (p : List Char) : List Char → Option (List Char × List Char)
  | [] => if p.isEmpty then some ([], []) else none
  | c :: cs =>
    if p.isPrefixOf (c :: cs) then some ([], (c :: cs).drop p.length)
    else
      match splitAtSub p cs with
      | some (pre, post) => some (c :: pre, post)
      | none => none

/-- Drop trailing whitespace. -/
def rstrip (t : List Char) : List Char :=
  (t.reverse.dropWhile isSpaceChar).reverse

/-- Python `str.strip()`. -/
def pyStrip (t : List Char) : List Char :=
  rstrip (t.dropWhile isSpaceChar)

/-- `ToolParser._strip_markdown`: the regex
` ```(?:json)?\s*(.*?)\s*``` ` (DOTALL) applied by `re.search`; on a match
return the capture group, otherwise the text unchanged.  Modelled as: find
the first fence, skip an optional `json` tag and leading whitespace, take
the content up to the next fence and strip its trailing whitespace; if no
closing fence exists the regex fails and the text is returned unchanged. -/
def strip_markdown (t : List Char) : List Char :=
  match splitAtSub "```".toList t with
  | none => t
  | some (_, afterOpen) =>
    let afterTag :=
      if "json".toList.isPrefixOf afterOpen then afterOpen.drop 4 else afterOpen
    let body := afterTag.dropWhile isSpaceChar
    match splitAtSub "```".toList body with
    | none => t
    | some (content, _) => rstrip content

/-- Index of the last occurrence of a character. -/
def lastIdxOf (c : Char) (t : List Char) : Option Nat :=
  match t.reverse.findIdx? (· == c) with
  | some i => some (t.length - 1 - i)
  | none => none

/-- `ToolParser._extract_json_string`: strip the text, then slice from the
first `'\x7b'` to the last `'\x7d'` (inclusive) when both exist in that
order. -/
def extract_json_string (t : List Char) : Option (List Char) :=
  let t := pyStrip t
  match t.findIdx? (· == '\x7b'), lastIdxOf '\x7d' t with
  | some s, some e => if e > s then some ((t.drop s).take (e + 1 - s)) else none
  | _, _ => none

/-- A decoded JSON value (`json.loads` output). -/
inductive JVal where
  | null
  | jbool (b : Bool)
  | jnum (n : Int)
  | jstr (s : String)
  | jarr (xs : List JVal)
  | jobj (fields : List (String × JVal))
  deriving Repr

/-- A decoded JSON object, i.e. the Python dict `json.loads` produces on a
brace-delimited document. -/
abbrev JObj := List (String × JVal)

/-- `"action" in data`. -/
def hasKey (d : JObj) (k : String) : Bool := d.any (fun e => e.1 == k)

/-- Dictionary assignment `data[k] = v`. -/
def dictSet (d : JObj) (k : String) (v : JVal) : JObj :=
  if d.any (fun e => e.1 == k) then
    d.map (fun e => if e.1 == k then (k, v) else e)
  else d ++ [(k, v)]

/-- `ToolParser.parse_steward_output`, parameterized by the collaborator
`json.loads` as an abstract decoder: the extracted slice always starts with
`'\x7b'` and ends with `'\x7d'`, so a successful decode is an object;
`none` models `json.JSONDecodeError`.  The function is total, which is the
model of "never raises"; the source's final catch-all
(`parser_unexpected_error`) guards stdlib surprises outside this model. -/
def parse_steward_output (decode : List Char → Option JObj)
    (text : List Char) : JObj :=
  let clean_text := strip_markdown text
  match extract_json_string clean_text with
  | none => [("action", JVal.jstr "no_tools"),
             ("reason", JVal.jstr "output_parsing_failed")]
  | some json_str =>
    match decode json_str with
    | none => [("action", JVal.jstr "no_tools"),
               ("reason", JVal.jstr "json_decode_error")]
    | some data =>
      if hasKey data "action" then data
      else if (match data.lookup "calls" with
               | some (JVal.jarr _) => true
               | _ => false) then
        dictSet data "action" (JVal.jstr "use_tools")
      else
        dictSet (dictSet data "action" (JVal.jstr "no_tools"))
          "reason" (JVal.jstr "missing_action_field")

/-! ### Web tools (`definitions/web.py`) -/

/-- The structured payload of `web.fetch`. -/
structure FetchData where
  content : List Char
  url : List Char
  deriving DecidableEq, Repr

/-- `ToolResult` specialized to the structured `web.fetch` payload (the
router-level model renders `data` as a string; the fetch claims are about
the payload's content, so the dict is kept structured here). -/
structure WebFetchResult where
  id : String
  run_id : String
  ok : Bool
  data : Option FetchData := none
  error : Option ToolError := none
  meta : List (String × MVal) := []
  deriving DecidableEq, Repr

/-- Python string repetition `s * n`. -/
def repeatChunk : Nat → List Char → List Char
  | 0, _ => []
  | n + 1, s => s ++ repeatChunk n s

/-- Python `str.replace(p, r)`: left-to-right, non-overlapping replacement
of every occurrence of `p` by `r`. -/
def replaceAllL (p r : List Char) : List Char → List Char
  | [] => []
  | c :: cs =>
    if h : p ≠ [] ∧ p.isPrefixOf (c :: cs) then
      r ++ replaceAllL p r ((c :: cs).drop p.length)
    else
      c :: replaceAllL p r cs
  termination_by s => s.length
  decreasing_by
  · simp only [List.length_drop, List.length_cons]
    have : 0 < p.length := List.length_pos.mpr h.1
    omega
  · simp

/-- `web_fetch`: mock fetch with the http(s) validation boundary and the
`<script>` sanitizer. -/
def web_fetch (args : List (String × List Char)) (run_id call_id : String) :
    WebFetchResult :=
  let url := (args.lookup "url").getD []
  if !("http://".toList.isPrefixOf url || "https://".toList.isPrefixOf url) then
    { id := call_id, run_id := run_id, ok := false,
      error := some { type := "validation_error",
                      message := "URL must start with http:// or https://" },
      meta := [("latency_ms", MVal.n 0)] }
  else
    let content :=
      repeatChunk 50 ("Simulated content for ".toList ++ url ++ ". ".toList)
    let content :=
      if hasSub "<script>".toList content then
        replaceAllL "<script>".toList "[SCRIPT REMOVED]".toList content
      else content
    { id := call_id, run_id := run_id, ok := true,
      data := some { content := content, url := url },
      error := none,
      meta := [("latency_ms", MVal.n 200), ("size_bytes", MVal.n content.length)] }

/-! ### Helper lemmas about the router loop -/

@[simp] theorem process_result_call_id (call : ToolCall) (r : ToolResult)
    (n : Nat) : (process_result call r n).call_id = call.id := by
  simp [process_result]

@[simp] theorem process_result_tool_name (call : ToolCall) (r : ToolResult)
    (n : Nat) : (process_result call r n).tool_name = call.name := by
  simp [process_result]

@[simp] theorem process_result_meta (call : ToolCall) (r : ToolResult)
    (n : Nat) : (process_result call r n).meta = r.meta := by
  simp [process_result]

theorem process_result_status (call : ToolCall) (r : ToolResult) (n : Nat) :
    (process_result call r n).status = if r.ok then "executed" else "failed" := by
  simp [process_result]

@[simp] theorem create_rejected_record_call_id (call : ToolCall) (reason : String) :
    (create_rejected_record call reason).call_id = call.id := rfl

@[simp] theorem create_rejected_record_tool_name (call : ToolCall) (reason : String) :
    (create_rejected_record call reason).tool_name = call.name := rfl

@[simp] theorem create_rejected_record_status (call : ToolCall) (reason : String) :
    (create_rejected_record call reason).status = "rejected" := rfl

@[simp] theorem create_rejected_record_meta (call : ToolCall) (reason : String) :
    (create_rejected_record call reason).meta = [("rejection_reason", MVal.s reason)] := rfl

theorem applyResult_records (cfg : RouterConfig) (st : RouterState)
    (call : ToolCall) (r : ToolResult) (c : Cache) (i : List (String × Args)) :
    (applyResult cfg st call r c i).1.usage_records =
      st.usage_records ++ [process_result call r st.total_evidence_chars] := by
  simp only [applyResult]
  split_ifs <;> rfl

theorem applyResult_limits_mono (cfg : RouterConfig) (st : RouterState)
    (call : ToolCall) (r : ToolResult) (c : Cache) (i : List (String × Args)) :
    ∀ x ∈ st.limits_triggered, x ∈ (applyResult cfg st call r c i).1.limits_triggered := by
  simp only [applyResult]
  split_ifs <;> intro x hx <;> simp [hx]

theorem applyResult_break_limits (cfg : RouterConfig) (st : RouterState)
    (call : ToolCall) (r : ToolResult) (c : Cache) (i : List (String × Args)) :
    (applyResult cfg st call r c i).2 = true →
      "max_evidence_size" ∈ (applyResult cfg st call r c i).1.limits_triggered := by
  simp only [applyResult]
  split_ifs <;> intro h <;> simp_all

/-- Every loop iteration appends exactly one ledger entry, for the visited
call, with one of the three statuses. -/
theorem routerStep_records (cfg : RouterConfig) (registry : String → Option Handler)
    (runId : String) (now : Nat) (st : RouterState) (call : ToolCall) :
    ∃ rec, (routerStep cfg registry runId now st call).1.usage_records =
        st.usage_records ++ [rec] ∧
      rec.call_id = call.id ∧ rec.tool_name = call.name ∧
      (rec.status = "executed" ∨ rec.status = "rejected" ∨ rec.status = "failed") := by
  unfold routerStep
  split_ifs
  · exact ⟨_, rfl, rfl, rfl, Or.inr (Or.inl rfl)⟩
  · exact ⟨_, rfl, rfl, rfl, Or.inr (Or.inl rfl)⟩
  · cases hreg : registry call.name with
    | none => exact ⟨_, rfl, rfl, rfl, Or.inr (Or.inl rfl)⟩
    | some func =>
      rcases hcc : check_cache st.cache now call with ⟨o, cacheAfter⟩
      cases o with
      | some result =>
        dsimp only
        refine ⟨_, applyResult_records .., by simp, by simp, ?_⟩
        rw [process_result_status]
        split_ifs <;> simp
      | none =>
        dsimp only
        cases hf : func call.arguments runId call.id with
        | result result =>
          dsimp only
          refine ⟨_, applyResult_records .., by simp, by simp, ?_⟩
          rw [process_result_status]
          split_ifs <;> simp
        | raise msg =>
          dsimp only
          refine ⟨_, rfl, by simp, by simp, ?_⟩
          rw [process_result_status]
          simp [handler_exception_result]

theorem routerStep_limits_mono (cfg : RouterConfig)
    (registry : String → Option Handler) (runId : String) (now : Nat)
    (st : RouterState) (call : ToolCall) :
    ∀ x ∈ st.limits_triggered,
      x ∈ (routerStep cfg registry runId now st call).1.limits_triggered := by
  unfold routerStep
  split_ifs <;> intro x hx
  · simp [hx]
  · simp [hx]
  · cases hreg : registry call.name with
    | none => simp [hx]
    | some func =>
      rcases hcc : check_cache st.cache now call with ⟨o, cacheAfter⟩
      cases o with
      | some result => dsimp only; exact applyResult_limits_mono _ _ _ _ _ _ x hx
      | none =>
        dsimp only
        cases hf : func call.arguments runId call.id with
        | result result => dsimp only; exact applyResult_limits_mono _ _ _ _ _ _ x hx
        | raise msg => dsimp only; simp [hx]

theorem routerStep_break_limits (cfg : RouterConfig)
    (registry : String → Option Handler) (runId : String) (now : Nat)
    (st : RouterState) (call : ToolCall) :
    (routerStep cfg registry runId now st call).2 = true →
      "max_evidence_size" ∈
        (routerStep cfg registry runId now st call).1.limits_triggered := by
  unfold routerStep
  split_ifs
  · intro h; cases h
  · intro h; cases h
  · cases hreg : registry call.name with
    | none => intro h; cases h
    | some func =>
      rcases hcc : check_cache st.cache now call with ⟨o, cacheAfter⟩
      cases o with
      | some result => dsimp only; exact applyResult_break_limits _ _ _ _ _ _
      | none =>
        dsimp only
        cases hf : func call.arguments runId call.id with
        | result result => dsimp only; exact applyResult_break_limits _ _ _ _ _ _
        | raise msg => dsimp only; intro h; cases h

theorem go_limits_mono (cfg : RouterConfig) (registry : String → Option Handler)
    (runId : String) (now : Nat) :
    ∀ (l : List ToolCall) (st : RouterState),
      ∀ x ∈ st.limits_triggered,
        x ∈ (go cfg registry runId now st l).limits_triggered := by
  intro l
  induction l with
  | nil => intro st x hx; exact hx
  | cons call rest ih =>
    intro st x hx
    rw [go]
    have hmono := routerStep_limits_mono cfg registry runId now st call x hx
    by_cases hb : (routerStep cfg registry runId now st call).2 = true
    · simp only [hb, if_pos]; exact hmono
    · simp only [Bool.not_eq_true] at hb
      simp only [hb, Bool.false_eq_true, if_neg, not_false_iff]
      exact ih _ x hmono

/-- Shape of the run ledger: the records are exactly one per *visited* call
(a prefix of the processed list, in order, correlated by call id), and a
proper prefix occurs only when the `max_evidence_size` limit fired. -/
theorem go_shape (cfg : RouterConfig) (registry : String → Option Handler)
    (runId : String) (now : Nat) :
    ∀ (l : List ToolCall) (st : RouterState),
      ∃ n, n ≤ l.length ∧
        (go cfg registry runId now st l).usage_records.map (·.call_id) =
          st.usage_records.map (·.call_id) ++ (l.take n).map (·.id) ∧
        (n < l.length →
          "max_evidence_size" ∈ (go cfg registry runId now st l).limits_triggered) := by
  intro l
  induction l with
  | nil => intro st; exact ⟨0, by simp, by simp [go], by simp⟩
  | cons call rest ih =>
    intro st
    rw [go]
    obtain ⟨rec, hrecs, hid, -, -⟩ := routerStep_records cfg registry runId now st call
    by_cases hb : (routerStep cfg registry runId now st call).2 = true
    · refine ⟨1, by simp, ?_, ?_⟩
      · simp only [hb, if_pos, hrecs, List.map_append, List.take, List.map_cons,
          List.map_nil, hid]
      · intro _
        simp only [hb, if_pos]
        exact routerStep_break_limits cfg registry runId now st call hb
    · simp only [Bool.not_eq_true] at hb
      simp only [hb, Bool.false_eq_true, if_neg, not_false_iff]
      obtain ⟨n, hn, hmap, hlim⟩ := ih (routerStep cfg registry runId now st call).1
      refine ⟨n + 1, by simpa using hn, ?_, ?_⟩
      · rw [hmap, hrecs]
        simp [hid]
      · intro hlt
        exact hlim (by simpa using hlt)

/-- Every ledger entry carries one of the three statuses. -/
theorem go_status (cfg : RouterConfig) (registry : String → Option Handler)
    (runId : String) (now : Nat) :
    ∀ (l : List ToolCall) (st : RouterState),
      (∀ r ∈ st.usage_records,
        r.status = "executed" ∨ r.status = "rejected" ∨ r.status = "failed") →
      ∀ r ∈ (go cfg registry runId now st l).usage_records,
        r.status = "executed" ∨ r.status = "rejected" ∨ r.status = "failed" := by
  intro l
  induction l with
  | nil => intro st h; exact h
  | cons call rest ih =>
    intro st h
    rw [go]
    obtain ⟨rec, hrecs, -, -, hstat⟩ := routerStep_records cfg registry runId now st call
    have hall : ∀ r ∈ (routerStep cfg registry runId now st call).1.usage_records,
        r.status = "executed" ∨ r.status = "rejected" ∨ r.status = "failed" := by
      rw [hrecs]
      intro r hr
      rcases List.mem_append.mp hr with hr | hr
      · exact h r hr
      · rcases List.mem_singleton.mp hr with rfl
        exact hstat
    by_cases hb : (routerStep cfg registry runId now st call).2 = true
    · simpa only [hb, if_pos] using hall
    · simp only [Bool.not_eq_true] at hb
      simp only [hb, Bool.false_eq_true, if_neg, not_false_iff]
      exact ih _ hall

/-! ### Helper lemmas about the stable priority sort -/

theorem mem_insertByRank (a x : ToolCall) :
    ∀ l, x ∈ insertByRank a l ↔ x = a ∨ x ∈ l := by
  intro l
  induction l with
  | nil => simp [insertByRank]
  | cons b bs ih =>
    rw [insertByRank]
    split_ifs
    · simp only [List.mem_cons, ih]
      tauto
    · simp only [List.mem_cons]

theorem length_insertByRank (a : ToolCall) :
    ∀ l, (insertByRank a l).length = l.length + 1 := by
  intro l
  induction l with
  | nil => rfl
  | cons b bs ih =>
    rw [insertByRank]
    split_ifs <;> simp [ih]

theorem mem_sortCalls (x : ToolCall) :
    ∀ calls, x ∈ sortCalls calls ↔ x ∈ calls := by
  intro calls
  induction calls with
  | nil => simp [sortCalls]
  | cons c cs ih =>
    show x ∈ insertByRank c (sortCalls cs) ↔ _
    rw [mem_insertByRank, ih]
    simp [eq_comm]

theorem length_sortCalls : ∀ calls, (sortCalls calls).length = calls.length := by
  intro calls
  induction calls with
  | nil => rfl
  | cons c cs ih =>
    show (insertByRank c (sortCalls cs)).length = _
    rw [length_insertByRank, ih]
    rfl

theorem pairwise_insertByRank (a : ToolCall) :
    ∀ l, l.Pairwise (fun x y => priorityRank x.priority ≤ priorityRank y.priority) →
      (insertByRank a l).Pairwise
        (fun x y => priorityRank x.priority ≤ priorityRank y.priority) := by
  intro l
  induction l with
  | nil => intro _; simp [insertByRank]
  | cons b bs ih =>
    intro h
    rw [List.pairwise_cons] at h
    rw [insertByRank]
    split_ifs with hlt
    · rw [List.pairwise_cons]
      refine ⟨?_, ih h.2⟩
      intro x hx
      rcases (mem_insertByRank a x bs).mp hx with rfl | hx
      · exact Nat.le_of_lt hlt
      · exact h.1 x hx
    · rw [List.pairwise_cons]
      refine ⟨?_, List.pairwise_cons.mpr h⟩
      intro x hx
      rcases List.mem_cons.mp hx with rfl | hx
      · exact Nat.le_of_not_lt hlt
      · exact Nat.le_trans (Nat.le_of_not_lt hlt) (h.1 x hx)

theorem pairwise_sortCalls :
    ∀ calls, (sortCalls calls).Pairwise
      (fun x y => priorityRank x.priority ≤ priorityRank y.priority) := by
  intro calls
  induction calls with
  | nil => simp [sortCalls]
  | cons c cs ih => exact pairwise_insertByRank c _ ih

/-! ### Claim C9: unrecognized priorities sort as `normal` -/

/-- C9: any call whose priority string is not one of `high`, `normal`,
`low` receives the sort key of `normal` (the `priority_map.get(c.priority,
1)` default), so the sort is total — it never crashes — and the sorted
output is always weakly increasing in `priorityRank`; in particular an
unrecognized priority never precedes a `high`-priority call. -/
theorem c9_unknown_priority_treated_as_normal :
    (∀ p : String, p ≠ "high" → p ≠ "normal" → p ≠ "low" →
      priorityRank p = priorityRank "normal") ∧
    (∀ calls : List ToolCall,
      (sortCalls calls).Pairwise
        (fun x y => priorityRank x.priority ≤ priorityRank y.priority)) := by
  refine ⟨?_, pairwise_sortCalls⟩
  intro p h1 h2 h3
  simp [priorityRank, h1, h2, h3]

/-- Witness for C9: the unrecognized priority `"urgent"` ranks as
`normal`, instantiated together with the sortedness component. -/
theorem c9_witness :
    priorityRank "urgent" = priorityRank "normal" ∧
    (sortCalls []).Pairwise
      (fun x y => priorityRank x.priority ≤ priorityRank y.priority) :=
  ⟨c9_unknown_priority_treated_as_normal.1 "urgent" (by decide) (by decide)
      (by decide),
   c9_unknown_priority_treated_as_normal.2 []⟩

/-! ### Claim C1: ledger completeness -/

/-- A handler that always succeeds with a fixed payload. -/
def constOkHandler (d : Option String) : Handler := fun _ rid cid =>
  HandlerOutcome.result
    { id := cid, run_id := rid, ok := true, data := d,
      meta := [("latency_ms", MVal.n 100), ("cached", MVal.b false)] }

/-- A registry with the single tool `"t"` whose handler succeeds with the
two-character payload `"XY"`. -/
def c1Registry : String → Option Handler :=
  fun n => if n == "t" then some (constOkHandler (some "XY")) else none

/-- A normal-priority request for tool `"t"`. -/
def c1Call (i q : String) : ToolCall :=
  { id := i, run_id := "r", name := "t", arguments := [("q", q)],
    purpose := "p", priority := "normal", requested_by := "m" }

/-- C1 counterexample: with `max_evidence_chars = 1` and two requests for a
succeeding tool, the first executed call's 2-character payload already
meets the evidence budget, the loop breaks, and the returned `tools_used`
has 1 entry for 2 input requests — `len(tools_used) == len(calls)` fails. -/
theorem c1_counterexample :
    (execute_tool_calls { max_evidence_chars := 1 } c1Registry [] 0
        [c1Call "a" "1", c1Call "b" "2"] "r").1.tools_used.length = 1 ∧
    [c1Call "a" "1", c1Call "b" "2"].length = 2 :=
  ⟨by decide, by decide⟩

/-- Shared shape of a full run: bounded ledger length, id correlation with
the sorted prefix, legal statuses, and full length when the evidence limit
did not fire. -/
theorem execute_records_shape (cfg : RouterConfig)
    (registry : String → Option Handler) (cache : Cache) (now : Nat)
    (calls : List ToolCall) (runId : String) :
    (execute_tool_calls cfg registry cache now calls runId).1.tools_used.length
        ≤ calls.length ∧
    (execute_tool_calls cfg registry cache now calls runId).1.tools_used.map
        (·.call_id) =
      ((sortCalls calls).take
        (execute_tool_calls cfg registry cache now calls
          runId).1.tools_used.length).map (·.id) ∧
    (∀ r ∈ (execute_tool_calls cfg registry cache now calls runId).1.tools_used,
      r.status = "executed" ∨ r.status = "rejected" ∨ r.status = "failed") ∧
    ("max_evidence_size" ∉
        (execute_tool_calls cfg registry cache now calls
          runId).1.limits.limits_triggered →
      (execute_tool_calls cfg registry cache now calls runId).1.tools_used.length
        = calls.length) := by
  obtain ⟨n, hn, hmap, hlim⟩ := go_shape cfg registry runId now (sortCalls calls)
    { usage_records := [], limits_triggered := [], calls_executed_count := 0,
      total_evidence_chars := 0, cache := cache, invocations := [] }
  simp only [List.map_nil, List.nil_append] at hmap
  have h1 : (execute_tool_calls cfg registry cache now calls runId).1.tools_used =
      (go cfg registry runId now
        { usage_records := [], limits_triggered := [], calls_executed_count := 0,
          total_evidence_chars := 0, cache := cache, invocations := [] }
        (sortCalls calls)).usage_records := rfl
  have h2 : (execute_tool_calls cfg registry cache now calls
      runId).1.limits.limits_triggered =
      (go cfg registry runId now
        { usage_records := [], limits_triggered := [], calls_executed_count := 0,
          total_evidence_chars := 0, cache := cache, invocations := [] }
        (sortCalls calls)).limits_triggered.dedup := rfl
  have hsortlen : (sortCalls calls).length = calls.length := length_sortCalls calls
  have hlen : (execute_tool_calls cfg registry cache now calls
      runId).1.tools_used.length = n := by
    rw [h1]
    have := congrArg List.length hmap
    simpa [List.length_take, Nat.min_eq_left hn] using this
  refine ⟨?_, ?_, ?_, ?_⟩
  · rw [hlen]
    exact hsortlen ▸ hn
  · rw [hlen, h1, hmap]
  · rw [h1]
    exact go_status cfg registry runId now (sortCalls calls) _ (by simp)
  · intro hnot
    rw [h2, List.mem_dedup] at hnot
    rw [hlen, ← hsortlen]
    by_contra hne
    exact hnot (hlim (Nat.lt_of_le_of_ne hn hne))

/-- C1 (amended): every *visited* request yields exactly one UsageRecord:
`tools_used` is, in order, one record per call of a prefix of the sorted
input, correlated by call id, each with status `executed`, `rejected` or
`failed`; and it has exactly N entries whenever the `max_evidence_size`
limit was not triggered (when that limit fires, the loop stops early and
the unvisited calls produce no records). -/
theorem c1_ledger_completeness (cfg : RouterConfig)
    (registry : String → Option Handler) (cache : Cache) (now : Nat)
    (calls : List ToolCall) (runId : String) :
    (execute_tool_calls cfg registry cache now calls runId).1.tools_used.length
        ≤ calls.length ∧
    (execute_tool_calls cfg registry cache now calls runId).1.tools_used.map
        (·.call_id) =
      ((sortCalls calls).take
        (execute_tool_calls cfg registry cache now calls
          runId).1.tools_used.length).map (·.id) ∧
    (∀ r ∈ (execute_tool_calls cfg registry cache now calls runId).1.tools_used,
      r.status = "executed" ∨ r.status = "rejected" ∨ r.status = "failed") ∧
    ("max_evidence_size" ∉
        (execute_tool_calls cfg registry cache now calls
          runId).1.limits.limits_triggered →
      (execute_tool_calls cfg registry cache now calls runId).1.tools_used.length
        = calls.length) :=
  execute_records_shape cfg registry cache now calls runId

/-- Witness for C1 at a run where the evidence limit is not triggered. -/
theorem c1_witness :
    (execute_tool_calls { } c1Registry [] 0
        [c1Call "a" "1", c1Call "b" "2"] "r").1.tools_used.length =
      [c1Call "a" "1", c1Call "b" "2"].length :=
  (c1_ledger_completeness { } c1Registry [] 0
    [c1Call "a" "1", c1Call "b" "2"] "r").2.2.2 (by decide)

/-! ### Claim C6: evidence-size truncation stops the run -/

/-- A registry with the single tool `"t"` returning a 2-character payload,
for the C6 scenarios. -/
def c6Registry : String → Option Handler :=
  fun n => if n == "t" then some (constOkHandler (some "XY")) else none

/-- A normal-priority request for tool `"t"`. -/
def c6Call (i q : String) : ToolCall :=
  { id := i, run_id := "r", name := "t", arguments := [("q", q)],
    purpose := "p", priority := "normal", requested_by := "m" }

/-- C6: when the running evidence total meets `max_evidence_chars` the loop
records `max_evidence_size` and stops, so not-yet-visited calls produce no
records at all.  Generally: whenever fewer records than input calls are
returned, `max_evidence_size` is among the triggered limits.  Concretely,
with budget 2 and three succeeding calls of payload length 2, only the
first call gets a record and the limit is triggered; in contrast, with a
call-count cap of 1 all three calls still get records (the over-budget
ones as explicit `budget_exceeded` rejections). -/
theorem c6_evidence_truncation :
    (∀ (cfg : RouterConfig) (registry : String → Option Handler)
        (cache : Cache) (now : Nat) (calls : List ToolCall) (runId : String),
      (execute_tool_calls cfg registry cache now calls runId).1.tools_used.length
          < calls.length →
        "max_evidence_size" ∈
          (execute_tool_calls cfg registry cache now calls
            runId).1.limits.limits_triggered) ∧
    ((execute_tool_calls { max_evidence_chars := 2 } c6Registry [] 0
        [c6Call "a" "1", c6Call "b" "2", c6Call "c" "3"] "r").1.tools_used.map
          (·.call_id) = ["a"] ∧
      "max_evidence_size" ∈
        (execute_tool_calls { max_evidence_chars := 2 } c6Registry [] 0
          [c6Call "a" "1", c6Call "b" "2", c6Call "c" "3"]
          "r").1.limits.limits_triggered) ∧
    ((execute_tool_calls { max_calls_per_run := 1 } c6Registry [] 0
        [c6Call "a" "1", c6Call "b" "2", c6Call "c" "3"] "r").1.tools_used.map
          (fun r => (r.call_id, r.status, r.meta.lookup "rejection_reason")) =
        [("a", "executed", none),
         ("b", "rejected", some (MVal.s "budget_exceeded")),
         ("c", "rejected", some (MVal.s "budget_exceeded"))]) := by
  refine ⟨?_, ⟨by decide, by decide⟩, by decide⟩
  intro cfg registry cache now calls runId hlt
  have h := execute_records_shape cfg registry cache now calls runId
  by_contra hnot
  exact Nat.lt_irrefl _ (h.2.2.2 hnot ▸ hlt)

/-- Witness for C6's general component at the concrete evidence-stop run. -/
theorem c6_witness :
    "max_evidence_size" ∈
      (execute_tool_calls { max_evidence_chars := 2 } c6Registry [] 0
        [c6Call "a" "1", c6Call "b" "2", c6Call "c" "3"]
        "r").1.limits.limits_triggered :=
  c6_evidence_truncation.1 { max_evidence_chars := 2 } c6Registry [] 0
    [c6Call "a" "1", c6Call "b" "2", c6Call "c" "3"] "r" (by decide)

/-! ### Claim C4: parser totality and fallbacks -/

theorem hasKey_dictSet (d : JObj) (k : String) (v : JVal) :
    hasKey (dictSet d k v) k = true := by
  unfold dictSet hasKey
  by_cases h : d.any (fun e => e.1 == k)
  · rw [if_pos h]
    rw [List.any_eq_true] at h ⊢
    obtain ⟨e, he, hk⟩ := h
    refine ⟨(k, v), List.mem_map.mpr ⟨e, he, ?_⟩, by simp⟩
    rw [if_pos hk]
  · rw [if_neg h, List.any_eq_true]
    exact ⟨(k, v), by simp, by simp⟩

theorem hasKey_dictSet_of (d : JObj) (k k' : String) (v : JVal)
    (h : hasKey d k = true) : hasKey (dictSet d k' v) k = true := by
  unfold dictSet
  unfold hasKey at h ⊢
  rw [List.any_eq_true] at h
  obtain ⟨e, he, hk⟩ := h
  by_cases h2 : d.any (fun e => e.1 == k')
  · rw [if_pos h2, List.any_eq_true]
    by_cases h3 : (e.1 == k') = true
    · refine ⟨(k', v), List.mem_map.mpr ⟨e, he, by rw [if_pos h3]⟩, ?_⟩
      have h4 : e.1 = k := by simpa using hk
      have h5 : e.1 = k' := by simpa using h3
      simp [← h5, h4]
    · exact ⟨e, List.mem_map.mpr ⟨e, he, by rw [if_neg h3]⟩, hk⟩
  · rw [if_neg h2, List.any_eq_true]
    exact ⟨e, List.mem_append_left _ he, hk⟩

/-- C4 (amended): for every input string and decoder behaviour the parser
returns a decision dictionary carrying an `action` key and never raises
(it is a total function); with no brace pair it falls back to
`output_parsing_failed`; on decode failure to `json_decode_error`; and
when the decoded object lacks an `action` field it infers `use_tools`
whenever `calls` is present and is an array — empty or not — and otherwise
falls back to `no_tools` with reason `missing_action_field`. -/
theorem c4_parser_fallbacks :
    (∀ (decode : List Char → Option JObj) (text : List Char),
      hasKey (parse_steward_output decode text) "action" = true) ∧
    (∀ (decode : List Char → Option JObj) (text : List Char),
      extract_json_string (strip_markdown text) = none →
      parse_steward_output decode text =
        [("action", JVal.jstr "no_tools"),
         ("reason", JVal.jstr "output_parsing_failed")]) ∧
    (∀ (decode : List Char → Option JObj) (text js : List Char),
      extract_json_string (strip_markdown text) = some js → decode js = none →
      parse_steward_output decode text =
        [("action", JVal.jstr "no_tools"),
         ("reason", JVal.jstr "json_decode_error")]) ∧
    (∀ (decode : List Char → Option JObj) (text js : List Char) (data : JObj),
      extract_json_string (strip_markdown text) = some js →
      decode js = some data → hasKey data "action" = false →
      ((∃ xs, data.lookup "calls" = some (JVal.jarr xs)) →
        parse_steward_output decode text =
          dictSet data "action" (JVal.jstr "use_tools")) ∧
      ((∀ xs, data.lookup "calls" ≠ some (JVal.jarr xs)) →
        parse_steward_output decode text =
          dictSet (dictSet data "action" (JVal.jstr "no_tools")) "reason"
            (JVal.jstr "missing_action_field"))) := by
  refine ⟨?_, ?_, ?_, ?_⟩
  · intro decode text
    simp only [parse_steward_output]
    cases hE : extract_json_string (strip_markdown text) with
    | none => rfl
    | some js =>
      dsimp only
      cases hD : decode js with
      | none => rfl
      | some data =>
        dsimp only
        by_cases hA : hasKey data "action" = true
        · rw [if_pos hA]
          exact hA
        · rw [if_neg hA]
          by_cases hC : (match data.lookup "calls" with
              | some (JVal.jarr _) => true
              | _ => false) = true
          · rw [if_pos hC]
            exact hasKey_dictSet data "action" (JVal.jstr "use_tools")
          · rw [if_neg hC]
            exact hasKey_dictSet_of _ _ _ _
              (hasKey_dictSet data "action" (JVal.jstr "no_tools"))
  · intro decode text hE
    simp only [parse_steward_output, hE]
  · intro decode text js hE hD
    simp only [parse_steward_output, hE, hD]
  · intro decode text js data hE hD hA
    constructor
    · rintro ⟨xs, hxs⟩
      simp only [parse_steward_output, hE, hD, hA, hxs, Bool.false_eq_true,
        if_false, if_true]
    · intro hno
      have hm : (match data.lookup "calls" with
          | some (JVal.jarr _) => true
          | _ => false) = false := by
        cases hL : data.lookup "calls" with
        | none => rfl
        | some v =>
          cases v
          case jarr xs => exact absurd hL (hno xs)
          all_goals rfl
      simp only [parse_steward_output, hE, hD, hA, hm, Bool.false_eq_true,
        if_false]

/-- The brace-delimited document `{"calls": []}` as raw input text. -/
def c4Text : List Char := "\x7b\"calls\": []\x7d".toList

/-- A decoder that decodes exactly that document to an object with an
empty `calls` array and no `action` field. -/
def c4Decode : List Char → Option JObj :=
  fun s => if s == c4Text then some [("calls", JVal.jarr [])] else none

/-- C4 counterexample: on a decoded object with an *empty* `calls` array
and no `action` field, the code infers `use_tools` (it checks only
`isinstance(data["calls"], list)`, not non-emptiness), whereas the claim
predicts `no_tools` with reason `missing_action_field`. -/
theorem c4_counterexample :
    (parse_steward_output c4Decode c4Text).lookup "action" =
        some (JVal.jstr "use_tools") ∧
    (parse_steward_output c4Decode c4Text).lookup "reason" = none ∧
    c4Decode c4Text = some [("calls", JVal.jarr [])] :=
  ⟨rfl, rfl, rfl⟩

/-- Witness for C4 at a text containing no JSON object. -/
theorem c4_witness :
    parse_steward_output (fun _ => none) "no json here".toList =
      [("action", JVal.jstr "no_tools"),
       ("reason", JVal.jstr "output_parsing_failed")] :=
  c4_parser_fallbacks.2.1 (fun _ => none) "no json here".toList rfl

/-! ### Claim C8: fetch validation boundary and sanitizer -/

theorem suffix_append_cases {α : Type} (a b t : List α) (h : t <:+ a ++ b) :
    t <:+ b ∨ ∃ a', a' <:+ a ∧ a' ≠ [] ∧ t = a' ++ b := by
  induction a with
  | nil => exact Or.inl (by simpa using h)
  | cons x a2 ih =>
    rw [List.cons_append, List.suffix_cons_iff] at h
    rcases h with rfl | h
    · exact Or.inr ⟨x :: a2, List.suffix_refl _, by simp, by simp⟩
    · rcases ih h with h2 | ⟨a', ha', hne, rfl⟩
      · exact Or.inl h2
      · exact Or.inr ⟨a', ha'.trans (List.suffix_cons x a2), hne, rfl⟩

theorem hasSub_iff (p : List Char) : ∀ s, hasSub p s = true ↔ p <:+: s := by
  intro s
  induction s with
  | nil =>
    rw [hasSub]
    simp [List.isEmpty_iff, List.infix_nil]
  | cons c cs ih =>
    rw [hasSub, Bool.or_eq_true, ih, List.isPrefixOf_iff_prefix,
      List.infix_cons_iff]

/-- A nonempty prefix of the replacement output whose characters avoid the
replacement string must already be a prefix of the input. -/
theorem replaceAll_prefix_transfer (p r : List Char) (hr : r ≠ []) :
    ∀ (n : Nat) (s t : List Char), s.length ≤ n → (∀ c ∈ t, c ∉ r) →
      t <+: replaceAllL p r s → t <+: s := by
  intro n
  induction n with
  | zero =>
    intro s t hlen ht hpre
    have hs : s = [] := List.length_eq_zero.mp (Nat.le_zero.mp hlen)
    subst hs
    simp only [replaceAllL] at hpre
    rw [List.prefix_nil.mp hpre]
  | succ n ih =>
    intro s t hlen ht hpre
    cases s with
    | nil =>
      simp only [replaceAllL] at hpre
      rw [List.prefix_nil.mp hpre]
    | cons c cs =>
      rw [replaceAllL] at hpre
      by_cases hcond : p ≠ [] ∧ p.isPrefixOf (c :: cs)
      · rw [dif_pos hcond] at hpre
        cases t with
        | nil => exact List.nil_prefix
        | cons d t' =>
          exfalso
          obtain ⟨u, hu⟩ := hpre
          cases hre : r with
          | nil => exact hr hre
          | cons e r' =>
            rw [hre, List.cons_append, List.cons_append] at hu
            have hde : d = e := (List.cons.injEq ..).mp hu |>.1
            exact ht d (List.mem_cons_self ..)
              (by rw [hre, hde]; exact List.mem_cons_self ..)
      · rw [dif_neg hcond] at hpre
        cases t with
        | nil => exact List.nil_prefix
        | cons d t' =>
          rw [List.cons_prefix_cons] at hpre
          obtain ⟨rfl, h2⟩ := hpre
          have hlen' : cs.length ≤ n := by
            simp only [List.length_cons] at hlen
            omega
          have := ih cs t' hlen'
            (fun ch hch => ht ch (List.mem_cons_of_mem _ hch)) h2
          exact List.cons_prefix_cons.mpr ⟨rfl, this⟩

/-- No suffix of the replacement output begins with the pattern, when the
pattern's characters are disjoint from the replacement's. -/
theorem replaceAll_no_overlap (p r : List Char) (hp : p ≠ []) (hr : r ≠ [])
    (hdisj : ∀ c ∈ p, c ∉ r) :
    ∀ (n : Nat) (s t : List Char), s.length ≤ n → t <:+ replaceAllL p r s →
      ¬ p <+: t := by
  intro n
  induction n with
  | zero =>
    intro s t hlen hsuf hppre
    have hs : s = [] := List.length_eq_zero.mp (Nat.le_zero.mp hlen)
    subst hs
    simp only [replaceAllL] at hsuf
    rw [List.suffix_nil.mp hsuf] at hppre
    exact hp (List.prefix_nil.mp hppre)
  | succ n ih =>
    intro s t hlen hsuf hppre
    cases s with
    | nil =>
      simp only [replaceAllL] at hsuf
      rw [List.suffix_nil.mp hsuf] at hppre
      exact hp (List.prefix_nil.mp hppre)
    | cons c cs =>
      rw [replaceAllL] at hsuf
      by_cases hcond : p ≠ [] ∧ p.isPrefixOf (c :: cs)
      · rw [dif_pos hcond] at hsuf
        rcases suffix_append_cases r
            (replaceAllL p r ((c :: cs).drop p.length)) t hsuf with
          h | ⟨r', hr', hne, rfl⟩
        · refine ih _ t ?_ h hppre
          have hplen : 0 < p.length := List.length_pos.mpr hcond.1
          simp only [List.length_drop, List.length_cons] at *
          omega
        · cases p with
          | nil => exact hp rfl
          | cons d p' =>
            cases r' with
            | nil => exact hne rfl
            | cons e r'' =>
              rw [List.cons_append, List.cons_prefix_cons] at hppre
              obtain ⟨rfl, -⟩ := hppre
              exact hdisj d (List.mem_cons_self ..)
                (hr'.subset (List.mem_cons_self ..))
      · rw [dif_neg hcond] at hsuf
        rw [List.suffix_cons_iff] at hsuf
        rcases hsuf with rfl | hsuf
        · cases p with
          | nil => exact hp rfl
          | cons d p' =>
            rw [List.cons_prefix_cons] at hppre
            obtain ⟨rfl, hp'⟩ := hppre
            have hp'cs : p' <+: cs :=
              replaceAll_prefix_transfer (d :: p') r hr cs.length cs p' le_rfl
                (fun ch hch => hdisj ch (List.mem_cons_of_mem _ hch)) hp'
            apply hcond
            refine ⟨by simp, ?_⟩
            rw [List.isPrefixOf_iff_prefix]
            exact List.cons_prefix_cons.mpr ⟨rfl, hp'cs⟩
        · refine ih cs t ?_ hsuf hppre
          simp only [List.length_cons] at hlen
          omega

/-- After left-to-right replacement of every occurrence of `p` by a
nonempty `r` whose characters are disjoint from `p`'s, `p` no longer
occurs anywhere in the output. -/
theorem replaceAll_not_infix (p r : List Char) (hp : p ≠ []) (hr : r ≠ [])
    (hdisj : ∀ c ∈ p, c ∉ r) (s : List Char) :
    ¬ p <:+: replaceAllL p r s := by
  intro h
  rw [List.infix_iff_prefix_suffix] at h
  obtain ⟨t, hpt, hts⟩ := h
  exact replaceAll_no_overlap p r hp hr hdisj s.length s t le_rfl hts hpt

/-- C8: a fetch whose `url` argument does not start with `http://` or
`https://` yields `ok = false` with error type `validation_error`; a fetch
whose `url` does yields `ok = true` with a payload whose content never
contains the disallowed `<script>` marker (the sanitizer neutralizes any
occurrence). -/
theorem c8_fetch_validation :
    (∀ (args : List (String × List Char)) (rid cid : String),
      ("http://".toList.isPrefixOf ((args.lookup "url").getD []) ||
        "https://".toList.isPrefixOf ((args.lookup "url").getD [])) = false →
      (web_fetch args rid cid).ok = false ∧
      ∃ e, (web_fetch args rid cid).error = some e ∧
        e.type = "validation_error") ∧
    (∀ (args : List (String × List Char)) (rid cid : String),
      ("http://".toList.isPrefixOf ((args.lookup "url").getD []) ||
        "https://".toList.isPrefixOf ((args.lookup "url").getD [])) = true →
      (web_fetch args rid cid).ok = true ∧
      ∃ d, (web_fetch args rid cid).data = some d ∧
        hasSub "<script>".toList d.content = false) := by
  constructor
  · intro args rid cid h
    have hC : (!("http://".toList.isPrefixOf ((args.lookup "url").getD []) ||
        "https://".toList.isPrefixOf ((args.lookup "url").getD []))) = true := by
      rw [h]; rfl
    simp only [web_fetch]
    rw [if_pos hC]
    exact ⟨rfl, _, rfl, rfl⟩
  · intro args rid cid h
    have hC : ¬ ((!("http://".toList.isPrefixOf ((args.lookup "url").getD []) ||
        "https://".toList.isPrefixOf ((args.lookup "url").getD []))) = true) := by
      rw [h]; simp
    simp only [web_fetch]
    rw [if_neg hC]
    refine ⟨rfl, ?_⟩
    by_cases hS : hasSub "<script>".toList
        (repeatChunk 50 ("Simulated content for ".toList ++
          (args.lookup "url").getD [] ++ ". ".toList)) = true
    · rw [if_pos hS]
      refine ⟨_, rfl, ?_⟩
      rw [Bool.eq_false_iff]
      intro hcontra
      exact replaceAll_not_infix "<script>".toList "[SCRIPT REMOVED]".toList
        (by decide) (by decide) (by decide) _ ((hasSub_iff _ _).mp hcontra)
    · rw [if_neg hS]
      exact ⟨_, rfl, by simpa using hS⟩

/-- Witness for C8: an `ftp://` fetch fails validation and an `http://`
fetch succeeds with sanitized content. -/
theorem c8_witness :
    (web_fetch [("url", "ftp://e.com".toList)] "r" "c").ok = false ∧
    (web_fetch [("url", "http://e.com".toList)] "r" "c").ok = true := by
  have h1 := c8_fetch_validation.1 [("url", "ftp://e.com".toList)] "r" "c"
    (by decide)
  have h2 := c8_fetch_validation.2 [("url", "http://e.com".toList)] "r" "c"
    (by decide)
  exact ⟨h1.1, h2.1⟩

/-! ### Claim C7: the router never raises -/

/-- Any state invariant preserved by one loop iteration holds after the
whole loop (also across the `max_evidence_size` break). -/
theorem go_invariant (cfg : RouterConfig) (registry : String → Option Handler)
    (runId : String) (now : Nat) (Q : RouterState → Prop)
    (hstep : ∀ st call, Q st → Q (routerStep cfg registry runId now st call).1) :
    ∀ (l : List ToolCall) (st : RouterState),
      Q st → Q (go cfg registry runId now st l) := by
  intro l
  induction l with
  | nil => intro st h; exact h
  | cons call rest ih =>
    intro st h
    rw [go]
    by_cases hb : (routerStep cfg registry runId now st call).2 = true
    · simp only [hb, if_pos]
      exact hstep st call h
    · simp only [Bool.not_eq_true] at hb
      simp only [hb, Bool.false_eq_true, if_neg, not_false_iff]
      exact ih _ (hstep st call h)

theorem check_cache_nil (now : Nat) (call : ToolCall) :
    check_cache [] now call = (none, []) := rfl

/-- One iteration against an all-raising registry, starting from an empty
cache: the cache stays empty and the appended record is a rejection or the
converted `tool_error` failure. -/
theorem routerStep_raise (cfg : RouterConfig)
    (registry : String → Option Handler) (runId : String) (now : Nat)
    (msg : String)
    (hraise : ∀ nm hd, registry nm = some hd →
      ∀ a cid, hd a runId cid = HandlerOutcome.raise msg)
    (st : RouterState) (call : ToolCall) (hcache : st.cache = []) :
    (routerStep cfg registry runId now st call).1.cache = [] ∧
    ∀ r ∈ (routerStep cfg registry runId now st call).1.usage_records,
      r ∈ st.usage_records ∨ r.status = "rejected" ∨
      (r.status = "failed" ∧ r.output_summary = "Error: " ++ msg ∧
        r.meta = [("latency_ms", MVal.n 0)]) := by
  unfold routerStep
  split_ifs
  · refine ⟨hcache, ?_⟩
    intro r hr
    rcases List.mem_append.mp hr with hr | hr
    · exact Or.inl hr
    · rcases List.mem_singleton.mp hr with rfl
      exact Or.inr (Or.inl rfl)
  · refine ⟨hcache, ?_⟩
    intro r hr
    rcases List.mem_append.mp hr with hr | hr
    · exact Or.inl hr
    · rcases List.mem_singleton.mp hr with rfl
      exact Or.inr (Or.inl rfl)
  · cases hreg : registry call.name with
    | none =>
      refine ⟨hcache, ?_⟩
      intro r hr
      rcases List.mem_append.mp hr with hr | hr
      · exact Or.inl hr
      · rcases List.mem_singleton.mp hr with rfl
        exact Or.inr (Or.inl rfl)
    | some func =>
      dsimp only
      rw [hcache, check_cache_nil]
      dsimp only
      rw [hraise call.name func hreg call.arguments call.id]
      dsimp only
      refine ⟨rfl, ?_⟩
      intro r hr
      rcases List.mem_append.mp hr with hr | hr
      · exact Or.inl hr
      · rcases List.mem_singleton.mp hr with rfl
        refine Or.inr (Or.inr ⟨?_, ?_, ?_⟩)
        · rw [process_result_status]
          rfl
        · simp [process_result, handler_exception_result]
        · rw [process_result_meta]
          rfl

/-- C7: unexpected handler exceptions are caught inside
`execute_tool_calls` and converted into `failed` records built from a
`tool_error` with `retryable = true`; no exception reaches the caller (the
loop is a total function, and with every registered handler raising, every
produced record is either a rejection or the converted failure carrying
the exception message). -/
theorem c7_router_never_raises :
    (∀ (call : ToolCall) (runId msg : String),
      (handler_exception_result call runId msg).ok = false ∧
      (handler_exception_result call runId msg).error =
        some { type := "tool_error", message := msg, retryable := true }) ∧
    (∀ (cfg : RouterConfig) (registry : String → Option Handler) (now : Nat)
        (calls : List ToolCall) (runId msg : String),
      (∀ nm hd, registry nm = some hd →
        ∀ a cid, hd a runId cid = HandlerOutcome.raise msg) →
      ∀ r ∈ (execute_tool_calls cfg registry [] now calls runId).1.tools_used,
        r.status = "rejected" ∨
        (r.status = "failed" ∧ r.output_summary = "Error: " ++ msg ∧
          r.meta = [("latency_ms", MVal.n 0)])) := by
  constructor
  · intro call runId msg
    exact ⟨rfl, rfl⟩
  · intro cfg registry now calls runId msg hraise r hr
    have hinv := go_invariant cfg registry runId now
      (fun st => st.cache = [] ∧ ∀ r ∈ st.usage_records,
        r.status = "rejected" ∨
        (r.status = "failed" ∧ r.output_summary = "Error: " ++ msg ∧
          r.meta = [("latency_ms", MVal.n 0)]))
      (by
        intro st call hq
        obtain ⟨hc, hrec⟩ := routerStep_raise cfg registry runId now msg hraise
          st call hq.1
        refine ⟨hc, ?_⟩
        intro r hr
        rcases hrec r hr with hr | hr
        · exact hq.2 r hr
        · exact hr)
      (sortCalls calls)
      { usage_records := [], limits_triggered := [], calls_executed_count := 0,
        total_evidence_chars := 0, cache := [], invocations := [] }
      ⟨rfl, by simp⟩
    exact hinv.2 r hr

/-- A registry whose only tool always raises, for the C7 witness. -/
def c7Registry : String → Option Handler :=
  fun n => if n == "t" then some (fun _ _ _ => HandlerOutcome.raise "boom")
           else none

/-- A request for the raising tool. -/
def c7Call : ToolCall :=
  { id := "a", run_id := "r", name := "t", arguments := [("q", "1")],
    purpose := "p", priority := "normal", requested_by := "m" }

/-- Witness for C7 at a concrete raising run: the produced record is the
converted `tool_error` failure. -/
theorem c7_witness :
    (process_result c7Call (handler_exception_result c7Call "r" "boom")
        0).status = "rejected" ∨
    ((process_result c7Call (handler_exception_result c7Call "r" "boom")
        0).status = "failed" ∧
      (process_result c7Call (handler_exception_result c7Call "r" "boom")
        0).output_summary = "Error: " ++ "boom" ∧
      (process_result c7Call (handler_exception_result c7Call "r" "boom")
        0).meta = [("latency_ms", MVal.n 0)]) :=
  c7_router_never_raises.2 { } c7Registry 0 [c7Call] "r" "boom"
    (by
      intro nm hd h a cid
      simp only [c7Registry] at h
      split_ifs at h with hn
      cases h
      rfl)
    _ (by decide)

/-! ### Claim C10: only successful results are cached -/

theorem check_cache_snd_subset (cache : Cache) (now : Nat) (call : ToolCall) :
    ∀ e ∈ (check_cache cache now call).2, e ∈ cache := by
  unfold check_cache
  cases hf : cache.find?
      (fun e => cacheKeyMatches call.name call.arguments e.1) with
  | none => exact fun e he => he
  | some entry =>
    obtain ⟨k, res, exp⟩ := entry
    dsimp only
    split_ifs
    · exact fun e he => he
    · intro e he
      exact (List.eraseP_sublist cache).subset he

theorem applyResult_cache (cfg : RouterConfig) (st : RouterState)
    (call : ToolCall) (r : ToolResult) (c : Cache) (i : List (String × Args)) :
    (applyResult cfg st call r c i).1.cache = c := by
  simp only [applyResult]
  split_ifs <;> rfl

/-- One iteration preserves "every cache entry's result is successful": the
cache write at `router.py:83-85` is guarded by `result.ok`. -/
theorem routerStep_cache_ok (cfg : RouterConfig)
    (registry : String → Option Handler) (runId : String) (now : Nat)
    (st : RouterState) (call : ToolCall)
    (hc : ∀ e ∈ st.cache, e.2.1.ok = true) :
    ∀ e ∈ (routerStep cfg registry runId now st call).1.cache,
      e.2.1.ok = true := by
  unfold routerStep
  split_ifs
  · exact hc
  · exact hc
  · cases hreg : registry call.name with
    | none => exact hc
    | some func =>
      dsimp only
      rcases hcc : check_cache st.cache now call with ⟨o, cacheAfter⟩
      have hsub : ∀ e ∈ cacheAfter, e ∈ st.cache := by
        intro e he
        have := check_cache_snd_subset st.cache now call e
        rw [hcc] at this
        exact this he
      cases o with
      | some result =>
        dsimp only
        rw [applyResult_cache]
        exact fun e he => hc e (hsub e he)
      | none =>
        dsimp only
        cases hf : func call.arguments runId call.id with
        | result result =>
          dsimp only
          rw [applyResult_cache]
          by_cases hok : result.ok = true
          · rw [if_pos hok]
            intro e he
            unfold update_cache at he
            rcases List.mem_cons.mp he with rfl | he
            · exact hok
            · exact hc e (hsub e ((List.eraseP_sublist cacheAfter).subset he))
          · rw [if_neg hok]
            exact fun e he => hc e (hsub e he)
        | raise msg =>
          dsimp only
          exact fun e he => hc e (hsub e he)

/-- A registry whose only tool always fails (returns `ok = false`), for
the C10 scenarios. -/
def c10FailRegistry : String → Option Handler :=
  fun n =>
    if n == "t" then
      some (fun _ rid cid => HandlerOutcome.result
        { id := cid, run_id := rid, ok := false, data := none,
          error := some { type := "tool_error", message := "bad",
                          retryable := false },
          meta := [("latency_ms", MVal.n 7)] })
    else none

/-- A registry whose only tool always raises, for the C10 scenarios. -/
def c10RaiseRegistry : String → Option Handler :=
  fun n => if n == "t" then some (fun _ _ _ => HandlerOutcome.raise "oops")
           else none

/-- Two identical requests (same tool, same arguments) for tool `"t"`. -/
def c10Call (i : String) : ToolCall :=
  { id := i, run_id := "r", name := "t", arguments := [("q", "x")],
    purpose := "p", priority := "normal", requested_by := "m" }

/-- C10: only successful results are written to the result cache —
starting from a cache whose entries are all `ok`, the final cache is again
all `ok`; and a call whose handler failed (or raised) leaves nothing in
the cache, so an identical later request re-invokes the handler instead of
replaying the failure: with two identical calls and a failing handler the
handler runs twice, the cache stays empty, and both records are `failed`
(for a raising handler, it likewise runs twice). -/
theorem c10_cache_only_ok :
    (∀ (cfg : RouterConfig) (registry : String → Option Handler)
        (cache₀ : Cache) (now : Nat) (calls : List ToolCall) (runId : String),
      (∀ e ∈ cache₀, e.2.1.ok = true) →
      ∀ e ∈ (execute_tool_calls cfg registry cache₀ now calls runId).2.1,
        e.2.1.ok = true) ∧
    ((execute_tool_calls { } c10FailRegistry [] 0
        [c10Call "a", c10Call "b"] "r").2.2 =
      [("t", [("q", "x")]), ("t", [("q", "x")])] ∧
      (execute_tool_calls { } c10FailRegistry [] 0
        [c10Call "a", c10Call "b"] "r").2.1 = [] ∧
      (execute_tool_calls { } c10FailRegistry [] 0
        [c10Call "a", c10Call "b"] "r").1.tools_used.map (·.status) =
        ["failed", "failed"]) ∧
    (execute_tool_calls { } c10RaiseRegistry [] 0
        [c10Call "a", c10Call "b"] "r").2.2.length = 2 := by
  refine ⟨?_, ⟨by decide, by decide, by decide⟩, by decide⟩
  intro cfg registry cache₀ now calls runId hc
  exact go_invariant cfg registry runId now
    (fun st => ∀ e ∈ st.cache, e.2.1.ok = true)
    (fun st call hq => routerStep_cache_ok cfg registry runId now st call hq)
    (sortCalls calls)
    { usage_records := [], limits_triggered := [], calls_executed_count := 0,
      total_evidence_chars := 0, cache := cache₀, invocations := [] }
    hc

/-- A registry whose only tool succeeds, for the C10 witness. -/
def c10OkRegistry : String → Option Handler :=
  fun n =>
    if n == "t" then
      some (fun _ rid cid => HandlerOutcome.result
        { id := cid, run_id := rid, ok := true, data := some "D", meta := [] })
    else none

/-- Witness for C10's invariant component: the single entry the succeeding
run leaves in the cache carries a successful result. -/
theorem c10_witness :
    ((("t", [("q", "x")]),
      ({ id := "a", run_id := "r", ok := true, data := some "D",
         error := none, meta := [] } : ToolResult), 300) :
      (String × Args) × ToolResult × Nat).2.1.ok = true :=
  c10_cache_only_ok.1 { } c10OkRegistry [] 0 [c10Call "a"] "r"
    (by simp) _ (by decide)

/-! ### Claim C3: allowlist enforcement -/

theorem isEmpty_false_of_ne_nil {l : List String} (hne : l ≠ []) :
    l.isEmpty = false := by
  cases l with
  | nil => exact absurd rfl hne
  | cons a as => rfl

theorem allowlistRejects_of_not_mem (l : List String) (name : String)
    (hne : l ≠ []) (h : name ∉ l) : allowlistRejects (some l) name = true := by
  have h2 : l.contains name = false := by
    by_contra hc
    rw [Bool.not_eq_false] at hc
    exact h (List.elem_iff.mp hc)
  show (!l.isEmpty && !l.contains name) = true
  rw [isEmpty_false_of_ne_nil hne, h2]
  rfl

theorem mem_of_allowlistRejects_false (l : List String) (name : String)
    (hne : l ≠ []) (h : allowlistRejects (some l) name = false) : name ∈ l := by
  have hshow : allowlistRejects (some l) name =
      (!l.isEmpty && !l.contains name) := rfl
  rw [hshow, isEmpty_false_of_ne_nil hne] at h
  simp only [Bool.not_false, Bool.true_and, Bool.not_eq_false'] at h
  exact List.elem_iff.mp h

theorem applyResult_count_le (cfg : RouterConfig) (st : RouterState)
    (call : ToolCall) (r : ToolResult) (c : Cache) (i : List (String × Args)) :
    (applyResult cfg st call r c i).1.calls_executed_count ≤
      st.calls_executed_count + 1 := by
  simp only [applyResult]
  split_ifs <;> simp

theorem routerStep_count_le (cfg : RouterConfig)
    (registry : String → Option Handler) (runId : String) (now : Nat)
    (st : RouterState) (call : ToolCall) :
    (routerStep cfg registry runId now st call).1.calls_executed_count ≤
      st.calls_executed_count + 1 := by
  unfold routerStep
  split_ifs
  · simp
  · simp
  · cases hreg : registry call.name with
    | none => simp
    | some func =>
      dsimp only
      rcases hcc : check_cache st.cache now call with ⟨o, cacheAfter⟩
      cases o with
      | some result => exact applyResult_count_le ..
      | none =>
        dsimp only
        cases hf : func call.arguments runId call.id with
        | result result => exact applyResult_count_le ..
        | raise msg => simp

/-- Exhaustive case split of one loop iteration: budget rejection,
allowlist rejection, registry rejection, or a processed handler/cache
result.  The rejection branches leave the executed-count unchanged. -/
theorem routerStep_cases (cfg : RouterConfig)
    (registry : String → Option Handler) (runId : String) (now : Nat)
    (st : RouterState) (call : ToolCall) :
    (st.calls_executed_count ≥ cfg.max_calls_per_run ∧
      (routerStep cfg registry runId now st call).1.usage_records =
        st.usage_records ++ [create_rejected_record call "budget_exceeded"]) ∨
    (st.calls_executed_count < cfg.max_calls_per_run ∧
      allowlistRejects cfg.allowlist call.name = true ∧
      (routerStep cfg registry runId now st call).1.usage_records =
        st.usage_records ++ [create_rejected_record call "access_denied"]) ∨
    (st.calls_executed_count < cfg.max_calls_per_run ∧
      allowlistRejects cfg.allowlist call.name = false ∧
      registry call.name = none ∧
      (routerStep cfg registry runId now st call).1.usage_records =
        st.usage_records ++ [create_rejected_record call "tool_not_found"]) ∨
    (st.calls_executed_count < cfg.max_calls_per_run ∧
      allowlistRejects cfg.allowlist call.name = false ∧
      ∃ result, (routerStep cfg registry runId now st call).1.usage_records =
        st.usage_records ++
          [process_result call result st.total_evidence_chars]) := by
  unfold routerStep
  split_ifs with h1 h2
  · exact Or.inl ⟨h1, rfl⟩
  · exact Or.inr (Or.inl ⟨Nat.lt_of_not_le h1, h2, rfl⟩)
  · have hlt : st.calls_executed_count < cfg.max_calls_per_run :=
      Nat.lt_of_not_le h1
    have hfalse : allowlistRejects cfg.allowlist call.name = false :=
      Bool.eq_false_iff.mpr h2
    cases hreg : registry call.name with
    | none => exact Or.inr (Or.inr (Or.inl ⟨hlt, hfalse, rfl, rfl⟩))
    | some func =>
      refine Or.inr (Or.inr (Or.inr ⟨hlt, hfalse, ?_⟩))
      dsimp only
      rcases hcc : check_cache st.cache now call with ⟨o, cacheAfter⟩
      cases o with
      | some result =>
        dsimp only
        exact ⟨result, applyResult_records ..⟩
      | none =>
        dsimp only
        cases hf : func call.arguments runId call.id with
        | result result =>
          dsimp only
          exact ⟨result, applyResult_records ..⟩
        | raise msg =>
          dsimp only
          exact ⟨handler_exception_result call runId msg, rfl⟩

/-- Records of non-allowlisted tools are always rejections, with reason
`access_denied` or `budget_exceeded`. -/
theorem go_allowlist_rejected (cfg : RouterConfig)
    (registry : String → Option Handler) (runId : String) (now : Nat)
    (al : List String) (hal : cfg.allowlist = some al) (hne : al ≠ []) :
    ∀ (l : List ToolCall) (st : RouterState),
      (∀ r ∈ st.usage_records, r.tool_name ∉ al →
        r.status = "rejected" ∧
          (r.meta = [("rejection_reason", MVal.s "access_denied")] ∨
           r.meta = [("rejection_reason", MVal.s "budget_exceeded")])) →
      ∀ r ∈ (go cfg registry runId now st l).usage_records,
        r.tool_name ∉ al →
        r.status = "rejected" ∧
          (r.meta = [("rejection_reason", MVal.s "access_denied")] ∨
           r.meta = [("rejection_reason", MVal.s "budget_exceeded")]) := by
  refine go_invariant cfg registry runId now _ ?_
  intro st call hq r hr
  rcases routerStep_cases cfg registry runId now st call with
    ⟨-, hrec⟩ | ⟨-, -, hrec⟩ | ⟨-, h2, -, hrec⟩ | ⟨-, h2, result, hrec⟩
  · rw [hrec] at hr
    rcases List.mem_append.mp hr with hr | hr
    · exact hq r hr
    · rcases List.mem_singleton.mp hr with rfl
      exact fun _ => ⟨rfl, Or.inr rfl⟩
  · rw [hrec] at hr
    rcases List.mem_append.mp hr with hr | hr
    · exact hq r hr
    · rcases List.mem_singleton.mp hr with rfl
      exact fun _ => ⟨rfl, Or.inl rfl⟩
  · rw [hrec] at hr
    rcases List.mem_append.mp hr with hr | hr
    · exact hq r hr
    · rcases List.mem_singleton.mp hr with rfl
      intro hmem
      rw [hal] at h2
      exact absurd (mem_of_allowlistRejects_false al call.name hne h2)
        (by simpa using hmem)
  · rw [hrec] at hr
    rcases List.mem_append.mp hr with hr | hr
    · exact hq r hr
    · rcases List.mem_singleton.mp hr with rfl
      intro hmem
      rw [hal] at h2
      exact absurd (mem_of_allowlistRejects_false al call.name hne h2)
        (by simpa using hmem)

/-- When the whole batch fits the call budget, every non-allowlisted call
is rejected specifically with `access_denied`. -/
theorem go_access_denied (cfg : RouterConfig)
    (registry : String → Option Handler) (runId : String) (now : Nat)
    (al : List String) (hal : cfg.allowlist = some al) (hne : al ≠ []) :
    ∀ (l : List ToolCall) (st : RouterState),
      st.calls_executed_count + l.length ≤ cfg.max_calls_per_run →
      (∀ r ∈ st.usage_records, r.tool_name ∉ al →
        r.status = "rejected" ∧
          r.meta = [("rejection_reason", MVal.s "access_denied")]) →
      ∀ r ∈ (go cfg registry runId now st l).usage_records,
        r.tool_name ∉ al →
        r.status = "rejected" ∧
          r.meta = [("rejection_reason", MVal.s "access_denied")] := by
  intro l
  induction l with
  | nil => intro st _ hq; exact hq
  | cons call rest ih =>
    intro st hbud hq
    have hlt : st.calls_executed_count < cfg.max_calls_per_run := by
      simp only [List.length_cons] at hbud
      omega
    have hstep : ∀ r ∈ (routerStep cfg registry runId now st call).1.usage_records,
        r.tool_name ∉ al →
        r.status = "rejected" ∧
          r.meta = [("rejection_reason", MVal.s "access_denied")] := by
      rcases routerStep_cases cfg registry runId now st call with
        ⟨hge, -⟩ | ⟨-, -, hrec⟩ | ⟨-, h2, -, hrec⟩ | ⟨-, h2, result, hrec⟩
      · exact absurd hge (Nat.not_le.mpr hlt)
      · intro r hr
        rw [hrec] at hr
        rcases List.mem_append.mp hr with hr | hr
        · exact hq r hr
        · rcases List.mem_singleton.mp hr with rfl
          exact fun _ => ⟨rfl, rfl⟩
      · intro r hr
        rw [hrec] at hr
        rcases List.mem_append.mp hr with hr | hr
        · exact hq r hr
        · rcases List.mem_singleton.mp hr with rfl
          intro hmem
          rw [hal] at h2
          exact absurd (mem_of_allowlistRejects_false al call.name hne h2)
            (by simpa using hmem)
      · intro r hr
        rw [hrec] at hr
        rcases List.mem_append.mp hr with hr | hr
        · exact hq r hr
        · rcases List.mem_singleton.mp hr with rfl
          intro hmem
          rw [hal] at h2
          exact absurd (mem_of_allowlistRejects_false al call.name hne h2)
            (by simpa using hmem)
    have hcount : (routerStep cfg registry runId now st call).1.calls_executed_count
        + rest.length ≤ cfg.max_calls_per_run := by
      have := routerStep_count_le cfg registry runId now st call
      simp only [List.length_cons] at hbud
      omega
    rw [go]
    by_cases hb : (routerStep cfg registry runId now st call).2 = true
    · simp only [hb, if_pos]
      exact hstep
    · simp only [Bool.not_eq_true] at hb
      simp only [hb, Bool.false_eq_true, if_neg, not_false_iff]
      exact ih _ hcount hstep

/-- With a falsy allowlist no record is ever rejected for `access_denied`. -/
theorem go_no_access_denied (cfg : RouterConfig)
    (registry : String → Option Handler) (runId : String) (now : Nat)
    (hfalsy : cfg.allowlist = none ∨ cfg.allowlist = some []) :
    ∀ (l : List ToolCall) (st : RouterState),
      (∀ r ∈ st.usage_records, r.status = "rejected" →
        r.meta.lookup "rejection_reason" ≠ some (MVal.s "access_denied")) →
      ∀ r ∈ (go cfg registry runId now st l).usage_records,
        r.status = "rejected" →
        r.meta.lookup "rejection_reason" ≠ some (MVal.s "access_denied") := by
  have hflat : ∀ name, allowlistRejects cfg.allowlist name = false := by
    intro name
    rcases hfalsy with h | h <;> rw [h] <;> rfl
  refine go_invariant cfg registry runId now _ ?_
  intro st call hq r hr
  rcases routerStep_cases cfg registry runId now st call with
    ⟨-, hrec⟩ | ⟨-, h2, -⟩ | ⟨-, -, -, hrec⟩ | ⟨-, -, result, hrec⟩
  · rw [hrec] at hr
    rcases List.mem_append.mp hr with hr | hr
    · exact hq r hr
    · rcases List.mem_singleton.mp hr with rfl
      intro _
      simp [create_rejected_record, List.lookup]
  · rw [hflat call.name] at h2
    cases h2
  · rw [hrec] at hr
    rcases List.mem_append.mp hr with hr | hr
    · exact hq r hr
    · rcases List.mem_singleton.mp hr with rfl
      intro _
      simp [create_rejected_record, List.lookup]
  · rw [hrec] at hr
    rcases List.mem_append.mp hr with hr | hr
    · exact hq r hr
    · rcases List.mem_singleton.mp hr with rfl
      intro hstat
      rw [process_result_status] at hstat
      split_ifs at hstat <;> simp_all

/-- A request for the non-allowlisted tool `"b"`. -/
def c3Call : ToolCall :=
  { id := "x", run_id := "r", name := "b", arguments := [], purpose := "p",
    priority := "normal", requested_by := "m" }

/-- C3 counterexample: the budget check precedes the allowlist check, so
with `max_calls_per_run = 0` a call for a tool that is *not* in the
allowlist is rejected with reason `budget_exceeded`, not `access_denied`,
even though the allowlist is configured and non-empty. -/
theorem c3_counterexample :
    c3Call.name ∉ ["a"] ∧
    (execute_tool_calls { allowlist := some ["a"], max_calls_per_run := 0 }
        (fun _ => none) [] 0 [c3Call] "r").1.tools_used.map
      (fun r => (r.status, r.meta)) =
      [("rejected", [("rejection_reason", MVal.s "budget_exceeded")])] :=
  ⟨by decide, by decide⟩

/-- C3 (amended): with a configured non-empty allowlist, a call for a tool
not in it is never executed — its record is always a rejection with reason
`access_denied` or `budget_exceeded`; specifically `access_denied` whenever
the input batch fits the call budget (the budget check precedes the
allowlist check, so after the cap is reached the rejection reason is
`budget_exceeded` instead).  A `None` or empty allowlist permits every
tool: no record is ever rejected with `access_denied`. -/
theorem c3_allowlist_enforcement :
    (∀ (cfg : RouterConfig) (registry : String → Option Handler)
        (cache : Cache) (now : Nat) (calls : List ToolCall) (runId : String)
        (al : List String), cfg.allowlist = some al → al ≠ [] →
      ∀ r ∈ (execute_tool_calls cfg registry cache now calls runId).1.tools_used,
        r.tool_name ∉ al →
        r.status = "rejected" ∧
          (r.meta = [("rejection_reason", MVal.s "access_denied")] ∨
           r.meta = [("rejection_reason", MVal.s "budget_exceeded")])) ∧
    (∀ (cfg : RouterConfig) (registry : String → Option Handler)
        (cache : Cache) (now : Nat) (calls : List ToolCall) (runId : String)
        (al : List String), cfg.allowlist = some al → al ≠ [] →
      calls.length ≤ cfg.max_calls_per_run →
      ∀ r ∈ (execute_tool_calls cfg registry cache now calls runId).1.tools_used,
        r.tool_name ∉ al →
        r.status = "rejected" ∧
          r.meta = [("rejection_reason", MVal.s "access_denied")]) ∧
    (∀ (cfg : RouterConfig) (registry : String → Option Handler)
        (cache : Cache) (now : Nat) (calls : List ToolCall) (runId : String),
      (cfg.allowlist = none ∨ cfg.allowlist = some []) →
      ∀ r ∈ (execute_tool_calls cfg registry cache now calls runId).1.tools_used,
        r.status = "rejected" →
        r.meta.lookup "rejection_reason" ≠ some (MVal.s "access_denied")) := by
  refine ⟨?_, ?_, ?_⟩
  · intro cfg registry cache now calls runId al hal hne
    exact go_allowlist_rejected cfg registry runId now al hal hne
      (sortCalls calls)
      { usage_records := [], limits_triggered := [], calls_executed_count := 0,
        total_evidence_chars := 0, cache := cache, invocations := [] }
      (by simp)
  · intro cfg registry cache now calls runId al hal hne hbud
    exact go_access_denied cfg registry runId now al hal hne
      (sortCalls calls)
      { usage_records := [], limits_triggered := [], calls_executed_count := 0,
        total_evidence_chars := 0, cache := cache, invocations := [] }
      (by rw [length_sortCalls]; simpa using hbud)
      (by simp)
  · intro cfg registry cache now calls runId hfalsy
    exact go_no_access_denied cfg registry runId now hfalsy
      (sortCalls calls)
      { usage_records := [], limits_triggered := [], calls_executed_count := 0,
        total_evidence_chars := 0, cache := cache, invocations := [] }
      (by simp)

/-- Witness for C3: within budget, the non-allowlisted call is rejected
with `access_denied`. -/
theorem c3_witness :
    (create_rejected_record c3Call "access_denied").status = "rejected" ∧
    (create_rejected_record c3Call "access_denied").meta =
      [("rejection_reason", MVal.s "access_denied")] :=
  c3_allowlist_enforcement.2.1 { allowlist := some ["a"] } (fun _ => none)
    [] 0 [c3Call] "r" ["a"] rfl (by decide) (by decide) _ (by decide) (by decide)

/-! ### Claim C2: deterministic priority-ordered budget admission -/

/-- A call that is allowlisted and registered with a handler that always
succeeds returning falsy data (so that the evidence budget, whose effect
is claim C6's subject, stays untouched). -/
def GoodCall (cfg : RouterConfig) (registry : String → Option Handler)
    (runId : String) (c : ToolCall) : Prop :=
  allowlistRejects cfg.allowlist c.name = false ∧
  ∃ hd, registry c.name = some hd ∧
    ∀ a cid, ∃ res, hd a runId cid = HandlerOutcome.result res ∧
      res.ok = true ∧ res.data = none

/-- Every cached result is successful with falsy data. -/
def CacheOkNone (cache : Cache) : Prop :=
  ∀ e ∈ cache, e.2.1.ok = true ∧ e.2.1.data = none

theorem process_result_raw_none (call : ToolCall) (result : ToolResult)
    (m : Nat) (hdata : result.data = none) :
    (process_result call result m).raw_truncated = some "" := by
  simp [process_result, rawStrOf, hdata]

theorem applyResult_good (cfg : RouterConfig) (st : RouterState)
    (call : ToolCall) (result : ToolResult) (cacheA : Cache)
    (invs : List (String × Args)) (hok : result.ok = true)
    (hdata : result.data = none) (hch : st.total_evidence_chars = 0)
    (hev : 0 < cfg.max_evidence_chars) :
    applyResult cfg st call result cacheA invs =
      ({ usage_records := st.usage_records ++
           [process_result call result st.total_evidence_chars],
         limits_triggered := st.limits_triggered,
         calls_executed_count := st.calls_executed_count + 1,
         total_evidence_chars := 0,
         cache := cacheA, invocations := invs }, false) := by
  have hraw := process_result_raw_none call result st.total_evidence_chars hdata
  simp only [applyResult, hraw, hok, if_true]
  rw [show String.isEmpty "" = true from rfl]
  simp only [if_true, Nat.add_zero]
  rw [hch]
  rw [if_neg (by omega)]

theorem check_cache_hit (cache : Cache) (now : Nat) (call : ToolCall)
    (result : ToolResult) (cacheA : Cache)
    (h : check_cache cache now call = (some result, cacheA))
    (hc : CacheOkNone cache) :
    result.ok = true ∧ result.data = none ∧ cacheA = cache := by
  unfold check_cache at h
  cases hf : cache.find?
      (fun e => cacheKeyMatches call.name call.arguments e.1) with
  | none =>
    rw [hf] at h
    simp at h
  | some entry =>
    obtain ⟨k, res, exp⟩ := entry
    rw [hf] at h
    dsimp only at h
    split_ifs at h with ht
    · rw [Prod.mk.injEq, Option.some.injEq] at h
      obtain ⟨hres, hcA⟩ := h
      obtain ⟨hok, hdata⟩ := hc _ (List.mem_of_find?_eq_some hf)
      subst hres
      exact ⟨hok, hdata, hcA.symm⟩
    · simp at h

theorem CacheOkNone_subset {c1 c2 : Cache} (hsub : ∀ e ∈ c1, e ∈ c2)
    (hc : CacheOkNone c2) : CacheOkNone c1 :=
  fun e he => hc e (hsub e he)

theorem CacheOkNone_update (cacheA : Cache) (now : Nat) (call : ToolCall)
    (res : ToolResult) (hc : CacheOkNone cacheA) (hok : res.ok = true)
    (hdata : res.data = none) :
    CacheOkNone (update_cache cacheA now call res) := by
  intro e he
  simp only [update_cache] at he
  rcases List.mem_cons.mp he with rfl | he
  · exact ⟨hok, hdata⟩
  · exact hc e ((List.eraseP_sublist cacheA).subset he)

theorem routerStep_budget (cfg : RouterConfig)
    (registry : String → Option Handler) (runId : String) (now : Nat)
    (st : RouterState) (call : ToolCall)
    (hge : st.calls_executed_count ≥ cfg.max_calls_per_run) :
    routerStep cfg registry runId now st call =
      ({ st with
         limits_triggered := st.limits_triggered ++ ["max_calls_per_run"],
         usage_records :=
           st.usage_records ++ [create_rejected_record call "budget_exceeded"] },
       false) := by
  unfold routerStep
  rw [if_pos hge]

theorem routerStep_good (cfg : RouterConfig)
    (registry : String → Option Handler) (runId : String) (now : Nat)
    (st : RouterState) (call : ToolCall)
    (hgc : GoodCall cfg registry runId call) (hcache : CacheOkNone st.cache)
    (hch : st.total_evidence_chars = 0) (hev : 0 < cfg.max_evidence_chars)
    (hlt : st.calls_executed_count < cfg.max_calls_per_run) :
    ∃ rec cacheA invs,
      routerStep cfg registry runId now st call =
        ({ usage_records := st.usage_records ++ [rec],
           limits_triggered := st.limits_triggered,
           calls_executed_count := st.calls_executed_count + 1,
           total_evidence_chars := 0,
           cache := cacheA, invocations := invs }, false) ∧
      rec.status = "executed" ∧ CacheOkNone cacheA := by
  obtain ⟨hallow, hd, hreg, hh⟩ := hgc
  unfold routerStep
  rw [if_neg (Nat.not_le.mpr hlt)]
  rw [if_neg (by rw [hallow]; exact Bool.false_ne_true)]
  rw [hreg]
  dsimp only
  rcases hcc : check_cache st.cache now call with ⟨o, cacheAfter⟩
  have hsub : ∀ e ∈ cacheAfter, e ∈ st.cache := by
    intro e he
    have h := check_cache_snd_subset st.cache now call e
    rw [hcc] at h
    exact h he
  cases o with
  | some result =>
    dsimp only
    obtain ⟨hok, hdata, hcAeq⟩ :=
      check_cache_hit st.cache now call result cacheAfter hcc hcache
    refine ⟨process_result call result st.total_evidence_chars, cacheAfter,
      st.invocations, ?_, ?_, ?_⟩
    · exact applyResult_good cfg st call result cacheAfter st.invocations
        hok hdata hch hev
    · rw [process_result_status, if_pos hok]
    · rw [hcAeq]
      exact hcache
  | none =>
    dsimp only
    obtain ⟨res, hres, hok, hdata⟩ := hh call.arguments call.id
    rw [hres]
    dsimp only
    rw [if_pos hok]
    refine ⟨process_result call res st.total_evidence_chars,
      update_cache cacheAfter now call res,
      st.invocations ++ [(call.name, call.arguments)], ?_, ?_, ?_⟩
    · exact applyResult_good cfg st call res _ _ hok hdata hch hev
    · rw [process_result_status, if_pos hok]
    · exact CacheOkNone_update cacheAfter now call res
        (CacheOkNone_subset hsub hcache) hok hdata

/-- Budget-admission bookkeeping over a batch of good calls: one record
per call, exactly `min (count + N) B − count` executions, and every
non-executed record is a `budget_exceeded` rejection. -/
theorem go_good (cfg : RouterConfig) (registry : String → Option Handler)
    (runId : String) (now : Nat) (hev : 0 < cfg.max_evidence_chars) :
    ∀ (l : List ToolCall) (st : RouterState),
      (∀ c ∈ l, GoodCall cfg registry runId c) →
      CacheOkNone st.cache → st.total_evidence_chars = 0 →
      st.calls_executed_count ≤ cfg.max_calls_per_run →
      ∃ added,
        (go cfg registry runId now st l).usage_records =
          st.usage_records ++ added ∧
        added.length = l.length ∧
        (go cfg registry runId now st l).calls_executed_count =
          min (st.calls_executed_count + l.length) cfg.max_calls_per_run ∧
        added.countP (fun r => r.status == "executed") =
          (go cfg registry runId now st l).calls_executed_count -
            st.calls_executed_count ∧
        added.countP (fun r => r.status == "rejected") =
          l.length - ((go cfg registry runId now st l).calls_executed_count -
            st.calls_executed_count) ∧
        ∀ r ∈ added, r.status = "executed" ∨
          (r.status = "rejected" ∧
            r.meta = [("rejection_reason", MVal.s "budget_exceeded")]) := by
  intro l
  induction l with
  | nil =>
    intro st _ _ _ hle
    refine ⟨[], by simp [go], rfl, ?_, ?_, ?_, by simp⟩
    · simp only [go, List.length_nil, Nat.add_zero]
      omega
    · simp [go]
    · simp [go]
  | cons call rest ih =>
    intro st hgood hcache hch hle
    by_cases hge : st.calls_executed_count ≥ cfg.max_calls_per_run
    · have heq : st.calls_executed_count = cfg.max_calls_per_run :=
        Nat.le_antisymm hle hge
      rw [go, routerStep_budget cfg registry runId now st call hge]
      dsimp only
      simp only [Bool.false_eq_true, if_false]
      obtain ⟨added₂, ha1, ha2, ha3, ha4, ha5, ha6⟩ := ih
        { st with
          limits_triggered := st.limits_triggered ++ ["max_calls_per_run"],
          usage_records :=
            st.usage_records ++ [create_rejected_record call "budget_exceeded"] }
        (fun c hc => hgood c (List.mem_cons_of_mem _ hc)) hcache hch hle
      dsimp only at ha1 ha3 ha4 ha5
      refine ⟨create_rejected_record call "budget_exceeded" :: added₂,
        ?_, ?_, ?_, ?_, ?_, ?_⟩
      · rw [ha1]
        simp
      · simp [ha2]
      · rw [ha3]
        simp only [List.length_cons]
        omega
      · rw [List.countP_cons_of_neg _ _
          (by rw [create_rejected_record_status]; decide), ha4]
      · rw [List.countP_cons_of_pos _ _
          (by rw [create_rejected_record_status]; decide), ha5, ha3]
        simp only [List.length_cons]
        omega
      · intro r hr
        rcases List.mem_cons.mp hr with rfl | hr
        · exact Or.inr ⟨rfl, rfl⟩
        · exact ha6 r hr
    · have hlt := Nat.lt_of_not_le hge
      obtain ⟨rec, cacheA, invs, hstep, hstat, hcA⟩ :=
        routerStep_good cfg registry runId now st call
          (hgood call (List.mem_cons_self ..)) hcache hch hev hlt
      rw [go, hstep]
      dsimp only
      simp only [Bool.false_eq_true, if_false]
      obtain ⟨added₂, ha1, ha2, ha3, ha4, ha5, ha6⟩ := ih
        { usage_records := st.usage_records ++ [rec],
          limits_triggered := st.limits_triggered,
          calls_executed_count := st.calls_executed_count + 1,
          total_evidence_chars := 0,
          cache := cacheA, invocations := invs }
        (fun c hc => hgood c (List.mem_cons_of_mem _ hc)) hcA rfl
        (by show st.calls_executed_count + 1 ≤ cfg.max_calls_per_run; omega)
      dsimp only at ha1 ha3 ha4 ha5
      refine ⟨rec :: added₂, ?_, ?_, ?_, ?_, ?_, ?_⟩
      · rw [ha1]
        simp
      · simp [ha2]
      · rw [ha3]
        simp only [List.length_cons]
        omega
      · rw [List.countP_cons_of_pos _ _ (by rw [hstat]; rfl), ha4, ha3]
        omega
      · rw [List.countP_cons_of_neg _ _ (by rw [hstat]; decide), ha5, ha3]
        simp only [List.length_cons]
        omega
      · intro r hr
        rcases List.mem_cons.mp hr with rfl | hr
        · exact Or.inl hstat
        · exact ha6 r hr

/-- A registry with the single tool `"t"` whose handler succeeds with
falsy data, for the C2 scenarios. -/
def c2Registry : String → Option Handler :=
  fun n => if n == "t" then some (constOkHandler none) else none

/-- A request for tool `"t"` with the given id and priority. -/
def c2Call (i pri : String) : ToolCall :=
  { id := i, run_id := "r", name := "t", arguments := [("q", i)],
    purpose := "p", priority := pri, requested_by := "m" }

/-- C2: priority-ordered admission is deterministic.  Concretely, three
requests with priorities `low`, `high`, `normal` (in that input order) and
`max_calls_per_run = 2` produce `high` executed, then `normal` executed,
then `low` rejected with `budget_exceeded`, and the `max_calls_per_run`
limit is recorded.  In general, for N allowlisted, registered,
always-succeeding calls and budget B < N, exactly B records are executed
and the remaining N − B are rejections stating `budget_exceeded`. -/
theorem c2_priority_budget_admission :
    ((execute_tool_calls { allowlist := some ["t"], max_calls_per_run := 2 }
        c2Registry [] 0
        [c2Call "l" "low", c2Call "h" "high", c2Call "n" "normal"]
        "r").1.tools_used.map
        (fun r => (r.call_id, r.status, r.meta.lookup "rejection_reason")) =
      [("h", "executed", none), ("n", "executed", none),
       ("l", "rejected", some (MVal.s "budget_exceeded"))] ∧
      "max_calls_per_run" ∈
        (execute_tool_calls { allowlist := some ["t"], max_calls_per_run := 2 }
          c2Registry [] 0
          [c2Call "l" "low", c2Call "h" "high", c2Call "n" "normal"]
          "r").1.limits.limits_triggered) ∧
    (∀ (cfg : RouterConfig) (registry : String → Option Handler) (now : Nat)
        (calls : List ToolCall) (runId : String),
      (∀ c ∈ calls, GoodCall cfg registry runId c) →
      0 < cfg.max_evidence_chars →
      cfg.max_calls_per_run < calls.length →
      (execute_tool_calls cfg registry [] now calls runId).1.tools_used.length
          = calls.length ∧
      (execute_tool_calls cfg registry [] now calls runId).1.tools_used.countP
          (fun r => r.status == "executed") = cfg.max_calls_per_run ∧
      (execute_tool_calls cfg registry [] now calls runId).1.tools_used.countP
          (fun r => r.status == "rejected") =
        calls.length - cfg.max_calls_per_run ∧
      ∀ r ∈ (execute_tool_calls cfg registry [] now calls runId).1.tools_used,
        r.status = "executed" ∨
        (r.status = "rejected" ∧
          r.meta = [("rejection_reason", MVal.s "budget_exceeded")])) := by
  refine ⟨⟨by decide, by decide⟩, ?_⟩
  intro cfg registry now calls runId hgood hev hBN
  obtain ⟨added, h1, h2, h3, h4, h5, h6⟩ :=
    go_good cfg registry runId now hev (sortCalls calls)
      { usage_records := [], limits_triggered := [], calls_executed_count := 0,
        total_evidence_chars := 0, cache := [], invocations := [] }
      (fun c hc => hgood c ((mem_sortCalls c calls).mp hc))
      (by intro e he; cases he) rfl (Nat.zero_le _)
  have htools : (execute_tool_calls cfg registry [] now calls
      runId).1.tools_used =
      (go cfg registry runId now
        { usage_records := [], limits_triggered := [],
          calls_executed_count := 0, total_evidence_chars := 0, cache := [],
          invocations := [] } (sortCalls calls)).usage_records := rfl
  rw [List.nil_append] at h1
  have hN := length_sortCalls calls
  rw [htools, h1]
  dsimp only at h3 h4 h5
  rw [Nat.sub_zero] at h4 h5
  refine ⟨?_, ?_, ?_, h6⟩
  · rw [h2, hN]
  · rw [h4, h3, hN]
    omega
  · rw [h5, h3, hN]
    omega

/-- Witness for C2's general component at the concrete three-call run. -/
theorem c2_witness :
    (execute_tool_calls { allowlist := some ["t"], max_calls_per_run := 2 }
        c2Registry [] 0
        [c2Call "l" "low", c2Call "h" "high", c2Call "n" "normal"]
        "r").1.tools_used.length =
      [c2Call "l" "low", c2Call "h" "high", c2Call "n" "normal"].length := by
  have h := c2_priority_budget_admission.2
    { allowlist := some ["t"], max_calls_per_run := 2 } c2Registry 0
    [c2Call "l" "low", c2Call "h" "high", c2Call "n" "normal"] "r"
    ?_ (by decide) (by decide)
  · exact h.1
  · intro c hc
    have hgc : GoodCall { allowlist := some ["t"], max_calls_per_run := 2 }
        c2Registry "r" (c2Call "l" "low") ∧
        GoodCall { allowlist := some ["t"], max_calls_per_run := 2 }
          c2Registry "r" (c2Call "h" "high") ∧
        GoodCall { allowlist := some ["t"], max_calls_per_run := 2 }
          c2Registry "r" (c2Call "n" "normal") := by
      refine ⟨⟨by decide, constOkHandler none, rfl, ?_⟩,
        ⟨by decide, constOkHandler none, rfl, ?_⟩,
        ⟨by decide, constOkHandler none, rfl, ?_⟩⟩ <;>
      · intro a cid
        exact ⟨_, rfl, rfl, rfl⟩
    rcases List.mem_cons.mp hc with rfl | hc
    · exact hgc.1
    rcases List.mem_cons.mp hc with rfl | hc
    · exact hgc.2.1
    rcases List.mem_cons.mp hc with rfl | hc
    · exact hgc.2.2
    cases hc

/-! ### Claim C5: result cache correctness and TTL -/

/-- A handler that succeeds with a one-character payload, for the C5
scenarios. -/
def c5Handler : Handler := fun _ rid cid =>
  HandlerOutcome.result
    { id := cid, run_id := rid, ok := true, data := some "D",
      meta := [("latency_ms", MVal.n 100), ("cached", MVal.b false)] }

/-- A registry with the single tool `"t"`. -/
def c5Registry : String → Option Handler :=
  fun n => if n == "t" then some c5Handler else none

/-- First request for tool `"t"`. -/
def c5CallA : ToolCall :=
  { id := "i1", run_id := "r", name := "t",
    arguments := [("q", "x"), ("num", "5")], purpose := "p",
    priority := "normal", requested_by := "m" }

/-- Second, identical request: same tool, same argument map with the pairs
listed in a different order (the cache key compares them as a set). -/
def c5CallB : ToolCall :=
  { id := "i2", run_id := "r", name := "t",
    arguments := [("num", "5"), ("q", "x")], purpose := "p",
    priority := "normal", requested_by := "m" }

/-- A request for a search-category tool, for the TTL-policy component. -/
def c5SearchCall : ToolCall :=
  { id := "s", run_id := "r", name := "web.search", arguments := [("q", "x")],
    purpose := "p", priority := "normal", requested_by := "m" }

/-- The result the first run leaves in the cache. -/
def c5Res : ToolResult :=
  { id := "i1", run_id := "r", ok := true, data := some "D",
    meta := [("latency_ms", MVal.n 100), ("cached", MVal.b false)] }

/-- The cache state after the first run (entry expires at 300). -/
def c5Cache1 : Cache := [(("t", [("q", "x"), ("num", "5")]), c5Res, 300)]

/-- One iteration on the identical call at any instant `d` before the
entry's expiry: a cache hit, no handler invocation. -/
theorem c5_run2_step (d : Nat) (hd : d < 300) :
    routerStep { } c5Registry "r2" d
      { usage_records := [], limits_triggered := [], calls_executed_count := 0,
        total_evidence_chars := 0, cache := c5Cache1, invocations := [] }
      c5CallB =
    ({ usage_records := [process_result c5CallB
          { c5Res with meta := metaSet c5Res.meta "cached" (MVal.b true) } 0],
       limits_triggered := [], calls_executed_count := 1,
       total_evidence_chars := 1, cache := c5Cache1, invocations := [] },
     false) := by
  have hcc : check_cache c5Cache1 d c5CallB =
      (some { c5Res with meta := metaSet c5Res.meta "cached" (MVal.b true) },
       c5Cache1) := by
    unfold check_cache
    rw [show c5Cache1.find?
        (fun e => cacheKeyMatches c5CallB.name c5CallB.arguments e.1) =
        some (("t", [("q", "x"), ("num", "5")]), c5Res, 300) from rfl]
    dsimp only
    rw [if_pos hd]
  unfold routerStep
  rw [if_neg (by decide)]
  rw [if_neg (by decide)]
  rw [show c5Registry c5CallB.name = some c5Handler from rfl]
  dsimp only
  rw [hcc]
  rfl

/-- The whole second run at any instant before expiry. -/
theorem c5_run2 (d : Nat) (hd : d < 300) :
    execute_tool_calls { } c5Registry c5Cache1 d [c5CallB] "r2" =
      ({ run_id := "r2", query := "[Pending]",
         tools_used := [process_result c5CallB
           { c5Res with meta := metaSet c5Res.meta "cached" (MVal.b true) } 0],
         limits := { max_calls := 5, calls_used := 1,
                     limits_triggered := [] } },
       c5Cache1, []) := by
  simp only [execute_tool_calls]
  rw [show sortCalls [c5CallB] = [c5CallB] from rfl]
  rw [go, c5_run2_step d hd]
  dsimp only
  simp only [Bool.false_eq_true, if_false]
  rw [go]
  rfl

/-- C5: two identical admitted calls — same tool, same argument map
compared order-independently — within the TTL window invoke the handler at
most once, and the second record's metadata carries `cached = true`; after
the TTL has expired an identical call invokes the handler again.  The TTL
written on a cache entry is 300 seconds (5 minutes) by default and 600
seconds (10 minutes) for search-category tools. -/
theorem c5_cache_correctness :
    ((execute_tool_calls { } c5Registry [] 0 [c5CallA, c5CallB] "r").2.2 =
        [("t", [("q", "x"), ("num", "5")])] ∧
      (execute_tool_calls { } c5Registry [] 0
          [c5CallA, c5CallB] "r").1.tools_used.map
          (fun r => (r.call_id, r.status, r.meta.lookup "cached")) =
        [("i1", "executed", some (MVal.b false)),
         ("i2", "executed", some (MVal.b true))] ∧
      (execute_tool_calls { } c5Registry [] 0 [c5CallA, c5CallB] "r").2.1 =
        c5Cache1) ∧
    (∀ d : Nat, d < 300 →
      (execute_tool_calls { } c5Registry c5Cache1 d [c5CallB] "r2").2.2 =
        [] ∧
      (execute_tool_calls { } c5Registry c5Cache1 d [c5CallB]
          "r2").1.tools_used.map
          (fun r => (r.call_id, r.status, r.meta.lookup "cached")) =
        [("i2", "executed", some (MVal.b true))]) ∧
    ((execute_tool_calls { } c5Registry c5Cache1 300 [c5CallB] "r3").2.2 =
        [("t", [("num", "5"), ("q", "x")])] ∧
      (execute_tool_calls { } c5Registry c5Cache1 300 [c5CallB]
          "r3").1.tools_used.map (fun r => r.meta.lookup "cached") =
        [some (MVal.b false)]) ∧
    (∀ (now : Nat) (res : ToolResult),
      update_cache [] now c5CallA res =
        [(("t", [("q", "x"), ("num", "5")]), res, now + 300)] ∧
      update_cache [] now c5SearchCall res =
        [(("web.search", [("q", "x")]), res, now + 600)]) := by
  refine ⟨⟨by decide, by decide, by decide⟩, ?_, ⟨by decide, by decide⟩, ?_⟩
  · intro d hd
    rw [c5_run2 d hd]
    exact ⟨rfl, rfl⟩
  · intro now res
    exact ⟨rfl, rfl⟩

/-- Witness for C5 at the concrete in-window instant `d = 299`. -/
theorem c5_witness :
    (execute_tool_calls { } c5Registry c5Cache1 299 [c5CallB] "r2").2.2 = [] :=
  (c5_cache_correctness.2.1 299 (by decide)).1

end LlmCouncil
